import Mathlib

/-!
Verification of the Gamebot bronze-layer validation and remediation engine
(`gamebot_core/db_utils.py` and `gamebot_core/validation.py`) against its
natural-language specification.  Dataframes are embedded as lists of rows,
where a row is a total function from column names to optional cell values
(`none` models a pandas null).
-/

namespace Gamebot

set_option linter.unusedVariables false
set_option linter.unnecessarySimpa false

/-- A dataframe cell: `none` models a pandas NaN/None value. -/
abbrev Cell := Option String

/-- A dataframe row, as the mapping a pandas row presents from column name
to cell value; columns absent from the frame read as null. -/
abbrev Row := String → Cell

/-- `df.loc[i, cols].to_dict()`: project a row onto a column list, producing
the record (an association list) pandas `to_dict("records")` would emit. -/
def projRecord (cols : List String) (r : Row) : List (String × Cell) :=
  cols.map (fun c => (c, r c))

/-- The key a row presents on a column subset, used for duplicate detection
(pandas `duplicated`/`drop_duplicates` treat equal tuples, nulls included,
as duplicates). -/
def projKey (cols : List String) (r : Row) : List Cell :=
  cols.map (fun c => r c)

/-- ASCII lowercasing of a character, embedding Python `str.lower` (all
strings handled by these datasets are ASCII). -/
def lowerChar (c : Char) : Char :=
  if 65 <= c.toNat && c.toNat <= 90 then Char.ofNat (c.toNat + 32) else c

/-- Python `str.lower`. -/
def pyLower (s : String) : String := String.mk (s.data.map lowerChar)

/-- Bool-valued substring test used to embed Python's `in` on strings. -/
def listInfix (needle hay : List Char) : Bool :=
  match hay with
  | [] => needle.isEmpty
  | _ :: t => needle.isPrefixOf hay || listInfix needle t

/-- `needle in hay` for strings (Python substring containment). -/
def strInfix (needle hay : String) : Bool :=
  listInfix needle.toList hay.toList

/-! ## SchemaValidator (`db_utils.validate_schema`, lines 1777-1850) -/

/-- One row of the catalog introspection query: column name, SQL data type,
and primary-key membership. -/
structure DbColumn where
  name : String
  dataType : String
  isPrimaryKey : Bool
deriving DecidableEq, Repr

/-- `SchemaValidationResult` (db_utils.py lines 106-114); sets are embedded
as lists and the mismatch map as an association list. -/
structure SchemaValidationResult where
  is_valid : Bool
  missing_columns : List String
  extra_columns : List String
  type_mismatches : List (String × (String × String))
  db_schema : List (String × String)
deriving DecidableEq, Repr

/-- The SQL-type to expected-runtime-type table of `validate_schema`. -/
def type_map : String → Option String := fun t =>
  if t = "character varying" then some "object"
  else if t = "text" then some "object"
  else if t = "boolean" then some "bool"
  else if t = "integer" then some "int"
  else if t = "bigint" then some "int"
  else if t = "double precision" then some "float"
  else if t = "numeric" then some "float"
  else if t = "real" then some "float"
  else if t = "date" then some "datetime"
  else if t = "timestamp without time zone" then some "datetime"
  else if t = "timestamp with time zone" then some "datetime"
  else if t = "uuid" then some "object"
  else none

/-- `validate_schema` (db_utils.py lines 1777-1850), after catalog
introspection: `dbInfo` is the introspected column list, `dfCols` pairs each
(already normalized) dataframe column with its pandas dtype string. -/
def validate_schema (dbInfo : List DbColumn) (dfCols : List (String × String)) :
    SchemaValidationResult :=
  let db_schema := dbInfo.map (fun c => (c.name, c.dataType))
  let db_pks := (dbInfo.filter (fun c => c.isPrimaryKey)).map DbColumn.name
  let db_cols := dbInfo.map DbColumn.name
  let sheet_cols := dfCols.map Prod.fst
  let missing := db_cols.filter
    (fun c => decide (c ∉ sheet_cols) && decide (c ∉ db_pks))
  let extra := sheet_cols.filter (fun c => decide (c ∉ db_cols))
  let type_issues := dfCols.filterMap (fun p =>
    match (db_schema.find? (fun q => q.1 = p.1)).map Prod.snd with
    | none => none
    | some dbType =>
      match type_map dbType with
      | none => none
      | some expected =>
        if !strInfix expected (pyLower p.2) then
          if !(expected = "datetime" && pyLower p.2 = "object") then
            some (p.1, (expected, p.2))
          else none
        else none)
  { is_valid := missing.isEmpty && type_issues.isEmpty
    missing_columns := missing.dedup
    extra_columns := extra.dedup
    type_mismatches := type_issues
    db_schema := db_schema }

/-- C1: `validate_schema` marks a target column missing exactly when it is
absent from the dataframe and not a primary key, marks dataframe columns
absent from the target schema as extra, reports validity iff there are no
missing columns and no type mismatches (extra columns never invalidate),
and never records a datetime-expected mismatch for an object-typed column. -/
theorem validate_schema_classification (dbInfo : List DbColumn)
    (dfCols : List (String × String)) :
    (∀ c, c ∈ (validate_schema dbInfo dfCols).missing_columns ↔
      ((∃ d ∈ dbInfo, d.name = c) ∧ c ∉ dfCols.map Prod.fst ∧
        ∀ d ∈ dbInfo, d.isPrimaryKey → d.name ≠ c)) ∧
    (∀ c, c ∈ (validate_schema dbInfo dfCols).extra_columns ↔
      (c ∈ dfCols.map Prod.fst ∧ ∀ d ∈ dbInfo, d.name ≠ c)) ∧
    ((validate_schema dbInfo dfCols).is_valid = true ↔
      ((validate_schema dbInfo dfCols).missing_columns = [] ∧
        (validate_schema dbInfo dfCols).type_mismatches = [])) ∧
    (∀ p ∈ dfCols, pyLower p.2 = "object" →
      (p.1, ("datetime", p.2)) ∉ (validate_schema dbInfo dfCols).type_mismatches) := by
  refine ⟨fun c => ?_, fun c => ?_, ?_, fun p hp hob => ?_⟩
  · simp only [validate_schema, List.mem_dedup, List.mem_filter, List.mem_map,
      Bool.and_eq_true, decide_eq_true_eq]
    aesop
  · simp only [validate_schema, List.mem_dedup, List.mem_filter, List.mem_map,
      decide_eq_true_eq]
    aesop
  · simp only [validate_schema, Bool.and_eq_true, List.isEmpty_iff,
      List.dedup_eq_nil]
  · intro hmem
    simp only [validate_schema, List.mem_filterMap] at hmem
    obtain ⟨q, _hq, hf⟩ := hmem
    split at hf
    next => exact Option.noConfusion hf
    next dbType _ =>
      split at hf
      next => exact Option.noConfusion hf
      next expected _ =>
        split at hf
        next h1 =>
          split at hf
          next h2 =>
            injection hf with hf'
            have hexp : expected = "datetime" := congrArg (fun z => z.2.1) hf'
            have hdt : q.2 = p.2 := congrArg (fun z => z.2.2) hf'
            rw [hexp, hdt, hob] at h2
            simp at h2
          next => exact Option.noConfusion hf
        next => exact Option.noConfusion hf

/-- Witness: at a concrete schema/dataframe the object-typed date column is
not recorded as a mismatch. -/
theorem validate_schema_classification_witness :
    ("ts", ("datetime", "object")) ∉
      (validate_schema [⟨"ts", "date", false⟩] [("ts", "object")]).type_mismatches :=
  (validate_schema_classification [⟨"ts", "date", false⟩] [("ts", "object")]).2.2.2
    ("ts", "object") (by decide) (by decide)

/-! ## IntegrityChecker: uniqueness (`validation._check_unique_constraint`,
lines 619-686) -/

/-- The per-rule uniqueness finding built by `_check_unique_constraint`;
sample rows are the `to_dict("records")` projections onto the constraint
columns, bounded by `head(10)`. -/
structure UniqueCheckResult where
  columns : List String
  status : String
  null_samples : List (String × List (List (String × Cell)))
  missing_sample : Option (List (List (String × Cell)))
  duplicate_sample : Option (List (List (String × Cell)))
deriving DecidableEq, Repr

/-- Rows pandas `duplicated(subset=cols, keep=False)` flags: rows whose key
on `cols` occurs more than once in the frame (nulls compare equal). -/
def duplicatedRows (cols : List String) (df : List Row) : List Row :=
  df.filter (fun r => decide (1 < df.countP (fun s => projKey cols s = projKey cols r)))

/-- `df_for_check` of `_check_unique_constraint`: the dataframe after
excluding rows with nulls in the nullable-exempt columns (no exclusion when
there are no exempt columns). -/
def uniqueKept (df : List Row) (nullable : List String) : List Row :=
  if nullable.isEmpty then df
  else df.filter (fun r => nullable.all (fun c => (r c).isSome))

/-- The finding `_check_unique_constraint` assembles before deciding whether
to raise (validation.py lines 623-679): nulls in every constraint column are
sampled; nulls in a non-exempt column fail; duplicates on the full column
tuple, after excluding rows with nulls in nullable-exempt columns, fail. -/
def uniqueResult (dataset_name : String) (df : List Row) (columns : List String)
    (nullable : List String) : UniqueCheckResult :=
  let base : UniqueCheckResult :=
    { columns := columns, status := "passed", null_samples := [],
      missing_sample := none, duplicate_sample := none }
  if columns.isEmpty then base
  else
    let null_samples := columns.filterMap (fun c =>
      let nulls := df.filter (fun r => (r c).isNone)
      if nulls.isEmpty then none
      else some (c, (nulls.take 10).map (projRecord columns)))
    let non_nullable := columns.filter (fun c => decide (c ∉ nullable))
    let missingRows := df.filter (fun r => non_nullable.any (fun c => (r c).isNone))
    let failNull := !non_nullable.isEmpty && !missingRows.isEmpty
    let df_for_check := uniqueKept df nullable
    let dupRows := duplicatedRows columns df_for_check
    let failDup := !df_for_check.isEmpty && !dupRows.isEmpty
    { columns := columns
      status := if failNull || failDup then "failed" else "passed"
      null_samples := null_samples
      missing_sample :=
        if failNull then some ((missingRows.take 10).map (projRecord columns))
        else none
      duplicate_sample :=
        if failDup then some ((dupRows.take 10).map (projRecord columns))
        else none }

/-- `_check_unique_constraint` raises `ValueError` when the assembled finding
is failed, and returns it otherwise; the raise is embedded as `Except.error`
carrying the finding captured for diagnosis. -/
def check_unique_constraint (dataset_name : String) (df : List Row)
    (columns : List String) (nullable : List String) :
    Except UniqueCheckResult UniqueCheckResult :=
  let r := uniqueResult dataset_name df columns nullable
  if r.status = "failed" then .error r else .ok r

/-- C2: the uniqueness check fails, raising, exactly when some non-exempt
constraint column is null in some row or a duplicate combination of the
constraint columns survives the exclusion of rows with nulls in the
nullable-exempt columns; its samples are bounded by 10 rows; nulls confined
to exempt columns never appear in the failure conditions. -/
theorem check_unique_constraint_spec (name : String) (df : List Row)
    (columns nullable : List String) (hcols : columns ≠ []) :
    ((uniqueResult name df columns nullable).status = "failed" ↔
      ((∃ row ∈ df, ∃ c ∈ columns, c ∉ nullable ∧ row c = none) ∨
        (∃ row ∈ uniqueKept df nullable,
          1 < (uniqueKept df nullable).countP
            (fun s => projKey columns s = projKey columns row)))) ∧
    ((∃ e, check_unique_constraint name df columns nullable = .error e) ↔
      (uniqueResult name df columns nullable).status = "failed") ∧
    (∀ s, (uniqueResult name df columns nullable).missing_sample = some s →
      s.length ≤ 10) ∧
    (∀ s, (uniqueResult name df columns nullable).duplicate_sample = some s →
      s.length ≤ 10) ∧
    (∀ p ∈ (uniqueResult name df columns nullable).null_samples, p.2.length ≤ 10) := by
  have hc : columns.isEmpty = false := by
    cases columns with
    | nil => exact absurd rfl hcols
    | cons a l => rfl
  have hNull : (!(columns.filter (fun c => decide (c ∉ nullable))).isEmpty &&
      !(df.filter (fun r =>
        (columns.filter (fun c => decide (c ∉ nullable))).any
          (fun c => (r c).isNone))).isEmpty) = true ↔
      (∃ row ∈ df, ∃ c ∈ columns, c ∉ nullable ∧ row c = none) := by
    constructor
    · intro h
      rw [Bool.and_eq_true] at h
      have hB : (df.filter (fun r =>
          (columns.filter (fun c => decide (c ∉ nullable))).any
            (fun c => (r c).isNone))) ≠ [] := by
        simpa using h.2
      obtain ⟨r, hrB⟩ := List.exists_mem_of_ne_nil _ hB
      obtain ⟨hr, hpr⟩ := List.mem_filter.1 hrB
      rw [List.any_eq_true] at hpr
      obtain ⟨c, hcA, hnone⟩ := hpr
      obtain ⟨hcc, hcn⟩ := List.mem_filter.1 hcA
      exact ⟨r, hr, c, hcc, by simpa using hcn, by simpa using hnone⟩
    · rintro ⟨r, hr, c, hcc, hcn, hnone⟩
      rw [Bool.and_eq_true]
      have hcA : c ∈ columns.filter (fun c => decide (c ∉ nullable)) :=
        List.mem_filter.2 ⟨hcc, by simpa using hcn⟩
      have hrB : r ∈ df.filter (fun r =>
          (columns.filter (fun c => decide (c ∉ nullable))).any
            (fun c => (r c).isNone)) :=
        List.mem_filter.2 ⟨hr, List.any_eq_true.2 ⟨c, hcA, by simp [hnone]⟩⟩
      exact ⟨by simpa using List.ne_nil_of_mem hcA,
        by simpa using List.ne_nil_of_mem hrB⟩
  have hDup : (!(uniqueKept df nullable).isEmpty &&
      !(duplicatedRows columns (uniqueKept df nullable)).isEmpty) = true ↔
      (∃ row ∈ uniqueKept df nullable,
        1 < (uniqueKept df nullable).countP
          (fun s => projKey columns s = projKey columns row)) := by
    constructor
    · intro h
      rw [Bool.and_eq_true] at h
      have hB : duplicatedRows columns (uniqueKept df nullable) ≠ [] := by
        simpa using h.2
      obtain ⟨r, hrB⟩ := List.exists_mem_of_ne_nil _ hB
      obtain ⟨hr, hcount⟩ := List.mem_filter.1 hrB
      exact ⟨r, hr, by simpa using hcount⟩
    · rintro ⟨r, hr, hcount⟩
      rw [Bool.and_eq_true]
      have hrB : r ∈ duplicatedRows columns (uniqueKept df nullable) :=
        List.mem_filter.2 ⟨hr, by simpa using hcount⟩
      exact ⟨by simpa using List.ne_nil_of_mem hr,
        by simpa using List.ne_nil_of_mem hrB⟩
  have hgen : ∀ (b1 b2 : Bool) (P Q : Prop), (b1 = true ↔ P) →
      (b2 = true ↔ Q) →
      (((if b1 || b2 then "failed" else "passed") : String) = "failed" ↔ (P ∨ Q)) := by
    intro b1 b2 P Q h1 h2
    cases b1 <;> cases b2 <;> simp_all
  refine ⟨?_, ?_, ?_, ?_, ?_⟩
  · simp only [uniqueResult, hc, Bool.false_eq_true, if_false]
    exact hgen _ _ _ _ hNull hDup
  · rw [check_unique_constraint]
    by_cases h : (uniqueResult name df columns nullable).status = "failed" <;>
      simp [h]
  · intro s hs
    rw [uniqueResult] at hs
    simp only [hc, Bool.false_eq_true, if_false] at hs
    split at hs
    · injection hs with hs'
      rw [← hs']
      simpa using List.length_take_le 10 _
    · exact Option.noConfusion hs
  · intro s hs
    rw [uniqueResult] at hs
    simp only [hc, Bool.false_eq_true, if_false] at hs
    split at hs
    · injection hs with hs'
      rw [← hs']
      simpa using List.length_take_le 10 _
    · exact Option.noConfusion hs
  · intro p hp
    rw [uniqueResult] at hp
    simp only [hc, Bool.false_eq_true, if_false] at hp
    simp only [List.mem_filterMap] at hp
    obtain ⟨c, hcc, hf⟩ := hp
    split at hf
    · exact Option.noConfusion hf
    · injection hf with hf'
      have hp2 : p.2 = ((df.filter (fun r => (r c).isNone)).take 10).map
          (projRecord columns) := congrArg Prod.snd hf'.symm
      rw [hp2]
      simpa using List.length_take_le 10 _

/-- Witness for C2: a dataframe with a duplicate pair on the constraint
column fails the uniqueness check. -/
theorem check_unique_constraint_spec_witness :
    (uniqueResult "vote_history" [fun _ => some "x", fun _ => some "x"]
      ["castaway_id"] []).status = "failed" :=
  ((check_unique_constraint_spec "vote_history"
      [fun _ => some "x", fun _ => some "x"] ["castaway_id"] []
      (by decide)).1).2 (Or.inr (by
    refine ⟨fun _ => some "x", by simp [uniqueKept], ?_⟩
    simp [uniqueKept, List.countP, List.countP.go, projKey]))

/-! ## IntegrityChecker: foreign keys (`validation._run_foreign_key_checks`,
lines 767-872, and `ForeignKeyRule`, lines 175-181) -/

/-- A dataframe with its column list (membership tests like
`col not in df.columns` need the explicit column set). -/
structure DataFrame where
  cols : List String
  rows : List Row

/-- `ForeignKeyRule` (validation.py lines 175-181). -/
structure ForeignKeyRule where
  target_columns : List String
  reference_dataset : String
  reference_columns : List String
  allow_null : Bool

/-- `dict.fromkeys`: deduplicate a list keeping first occurrences in order. -/
def dedupKeepFirst (l : List String) : List String :=
  l.foldl (fun acc x => if x ∈ acc then acc else acc ++ [x]) []

/-- The per-rule finding dict assembled by `_run_foreign_key_checks`. -/
structure FKResult where
  columns : List String
  referenced_table : String
  reference_columns : List String
  allow_null : Bool
  status : String
  reason : Option String := none
  null_count : Option Nat := none
  null_samples : Option (List (List (String × Cell))) := none
  note : Option String := none
  sample_records : Option (List (List (String × Cell))) := none
deriving DecidableEq, Repr

/-- `reference_keys`: the set of reference-column tuples built from the
cached reference snapshot, with rows containing nulls dropped
(`reference_df[ref_columns].dropna()`). -/
def fkReferenceKeys (refCols : List String) (refRows : List Row) :
    List (List String) :=
  refRows.filterMap (fun r =>
    if refCols.all (fun c => (r c).isSome) then
      some (refCols.map (fun c => (r c).getD ""))
    else none)

/-- One iteration of the unmatched-tuple collection loop of
`_run_foreign_key_checks` (lines 843-854): skip rows with a null target
value, skip matched tuples and already-seen tuples, otherwise record the
tuple in `seen_unmatched` and the combined-column row in `unmatched`. -/
def collectUnmatchedStep (refKeys : List (List String))
    (targetCols combined : List String)
    (acc : List (List String) × List (List (String × Cell))) (r : Row) :
    List (List String) × List (List (String × Cell)) :=
  if targetCols.any (fun c => (r c).isNone) then acc
  else
    let tup := targetCols.map (fun c => (r c).getD "")
    if tup ∉ refKeys then
      if tup ∈ acc.1 then acc
      else (acc.1 ++ [tup], acc.2 ++ [projRecord combined r])
    else acc

/-- The unmatched-tuple collection loop of `_run_foreign_key_checks` (lines
838-854): accumulates the `seen_unmatched` tuple set and the `unmatched`
sample rows (projected onto the combined target+context columns). -/
def collectUnmatched (refKeys : List (List String)) (targetCols combined : List String)
    (subsetRows : List Row) : List (List String) × List (List (String × Cell)) :=
  subsetRows.foldl (collectUnmatchedStep refKeys targetCols combined) ([], [])

/-- The body of the per-rule loop in `_run_foreign_key_checks` (validation.py
lines 776-870).  `cache` is `REFERENCE_CACHE`, `fkContextCols` the
`FK_CONTEXT_COLUMNS` entry for the dataset. -/
def run_foreign_key_check (cache : String → Option (List Row))
    (fkContextCols : List String) (df : DataFrame) (rule : ForeignKeyRule) :
    FKResult :=
  let base : FKResult :=
    { columns := rule.target_columns
      referenced_table := rule.reference_dataset
      reference_columns := rule.reference_columns
      allow_null := rule.allow_null
      status := "skipped" }
  match cache rule.reference_dataset with
  | none => { base with reason := some "reference_missing" }
  | some refRows =>
    if refRows.isEmpty then { base with reason := some "reference_missing" }
    else
      let missing_cols := rule.target_columns.filter (fun c => decide (c ∉ df.cols))
      if !missing_cols.isEmpty then { base with reason := some "target_missing" }
      else
        let context_cols := fkContextCols.filter (fun c => decide (c ∈ df.cols))
        let combined := dedupKeepFirst (rule.target_columns ++ context_cols)
        let nullRows := df.rows.filter
          (fun r => rule.target_columns.any (fun c => (r c).isNone))
        let subsetRows := df.rows.filter
          (fun r => rule.target_columns.all (fun c => (r c).isSome))
        let base2 :=
          if rule.allow_null then
            (if !nullRows.isEmpty then
              { base with null_count := some nullRows.length
                          null_samples :=
                            some ((nullRows.take 10).map (projRecord combined)) }
            else base)
          else base
        if subsetRows.isEmpty then
          { base2 with status := "passed", note := some "No rows to validate" }
        else
          let refKeys := fkReferenceKeys rule.reference_columns refRows
          let unmatched := (collectUnmatched refKeys rule.target_columns
            combined subsetRows).2
          if !unmatched.isEmpty then
            { base2 with status := "failed"
                         sample_records := some (unmatched.take 10) }
          else { base2 with status := "passed" }

/-- `_run_foreign_key_checks`: evaluate every configured rule in order. -/
def run_foreign_key_checks (cache : String → Option (List Row))
    (fkContextCols : List String) (df : DataFrame)
    (rules : List ForeignKeyRule) : List FKResult :=
  rules.map (run_foreign_key_check cache fkContextCols df)

/-- The collection loop keeps `seen_unmatched` duplicate-free and in
bijection with the `unmatched` sample list. -/
theorem collectUnmatched_foldl_inv (refKeys : List (List String))
    (targetCols combined : List String) (rows : List Row)
    (acc : List (List String) × List (List (String × Cell)))
    (h1 : acc.1.Nodup) (h2 : acc.1.length = acc.2.length) :
    (rows.foldl (collectUnmatchedStep refKeys targetCols combined) acc).1.Nodup ∧
    (rows.foldl (collectUnmatchedStep refKeys targetCols combined) acc).1.length =
      (rows.foldl (collectUnmatchedStep refKeys targetCols combined) acc).2.length := by
  induction rows generalizing acc with
  | nil => exact ⟨h1, h2⟩
  | cons r rows ih =>
    simp only [List.foldl_cons]
    apply ih
    · simp only [collectUnmatchedStep]
      split
      · exact h1
      · split
        · split
          · exact h1
          · refine List.Nodup.append h1 (List.nodup_singleton _) ?_
            intro x hx hx'
            rw [List.mem_singleton] at hx'
            subst hx'
            exact (by assumption : ¬ _ ∈ acc.1) hx
        · exact h1
    · simp only [collectUnmatchedStep]
      split
      · exact h2
      · split
        · split
          · exact h2
          · simp [h2]
        · exact h2

/-- The `unmatched` list stays nonempty once populated. -/
theorem collectUnmatched_foldl_ne_nil (refKeys : List (List String))
    (targetCols combined : List String) (rows : List Row)
    (acc : List (List String) × List (List (String × Cell)))
    (h : acc.2 ≠ []) :
    (rows.foldl (collectUnmatchedStep refKeys targetCols combined) acc).2 ≠ [] := by
  induction rows generalizing acc with
  | nil => exact h
  | cons r rows ih =>
    simp only [List.foldl_cons]
    apply ih
    simp only [collectUnmatchedStep]
    split
    · exact h
    · split
      · split
        · exact h
        · simp
      · exact h

/-- The loop collects nothing exactly when every row is skipped: a null
target value or a tuple found among the reference keys. -/
theorem collectUnmatched_nil_iff (refKeys : List (List String))
    (targetCols combined : List String) (rows : List Row) :
    (collectUnmatched refKeys targetCols combined rows).2 = [] ↔
    ∀ r ∈ rows, targetCols.any (fun c => (r c).isNone) = true ∨
      targetCols.map (fun c => (r c).getD "") ∈ refKeys := by
  rw [collectUnmatched]
  induction rows with
  | nil => simp
  | cons r rows ih =>
    simp only [List.foldl_cons, List.mem_cons]
    simp only [collectUnmatchedStep]
    split
    next hskip =>
      rw [ih]
      constructor
      · intro h x hx
        cases hx with
        | inl he => exact Or.inl (he ▸ hskip)
        | inr hm => exact h x hm
      · intro h x hx
        exact h x (Or.inr hx)
    next hskip =>
      split
      next hnotin =>
        split
        next hseen => simp at hseen
        next =>
          constructor
          · intro h
            exact absurd h (collectUnmatched_foldl_ne_nil _ _ _ _ _ (by simp))
          · intro h
            rcases h r (Or.inl rfl) with h' | h'
            · exact absurd h' hskip
            · exact absurd h' hnotin
      next hin =>
        rw [ih]
        constructor
        · intro h x hx
          cases hx with
          | inl he =>
            subst he
            exact Or.inr (not_not.1 hin)
          | inr hm => exact h x hm
        · intro h x hx
          exact h x (Or.inr hx)

/-- C3: a foreign-key rule is skipped (never failed) when the reference
dataset is not cached or a target column is absent; with `allow_null` true,
rows with null target values are reported with a count and a sample of at
most 10 rows; the rule fails exactly when some fully-non-null row's target
tuple is missing from the reference-key set; unmatched samples are
deduplicated and bounded by 10. -/
theorem foreign_key_check_spec (cache : String → Option (List Row))
    (ctx : List String) (df : DataFrame) (rule : ForeignKeyRule) :
    (cache rule.reference_dataset = none →
      (run_foreign_key_check cache ctx df rule).status = "skipped" ∧
      (run_foreign_key_check cache ctx df rule).reason = some "reference_missing") ∧
    (∀ refRows, cache rule.reference_dataset = some refRows → refRows ≠ [] →
      (∃ c ∈ rule.target_columns, c ∉ df.cols) →
      (run_foreign_key_check cache ctx df rule).status = "skipped" ∧
      (run_foreign_key_check cache ctx df rule).reason = some "target_missing") ∧
    (∀ refRows, cache rule.reference_dataset = some refRows → refRows ≠ [] →
      (∀ c ∈ rule.target_columns, c ∈ df.cols) → rule.allow_null = true →
      (∃ r ∈ df.rows, rule.target_columns.any (fun c => (r c).isNone) = true) →
      (run_foreign_key_check cache ctx df rule).null_count =
        some (df.rows.filter
          (fun r => rule.target_columns.any (fun c => (r c).isNone))).length ∧
      (∀ s, (run_foreign_key_check cache ctx df rule).null_samples = some s →
        s.length ≤ 10)) ∧
    (∀ refRows, cache rule.reference_dataset = some refRows → refRows ≠ [] →
      (∀ c ∈ rule.target_columns, c ∈ df.cols) →
      ((run_foreign_key_check cache ctx df rule).status = "failed" ↔
        ∃ r ∈ df.rows, (rule.target_columns.all (fun c => (r c).isSome) = true) ∧
          rule.target_columns.map (fun c => (r c).getD "") ∉
            fkReferenceKeys rule.reference_columns refRows)) ∧
    (∀ s, (run_foreign_key_check cache ctx df rule).sample_records = some s →
      s.length ≤ 10) ∧
    (∀ rk tc cc rows, (collectUnmatched rk tc cc rows).1.Nodup ∧
      (collectUnmatched rk tc cc rows).1.length =
        (collectUnmatched rk tc cc rows).2.length) := by
  have hallnot : ∀ (r : Row),
      rule.target_columns.all (fun c => (r c).isSome) = true →
      rule.target_columns.any (fun c => (r c).isNone) = false := by
    intro r h
    rw [List.any_eq_false]
    intro c hc
    have h2 := List.all_eq_true.1 h c hc
    simp only [Option.isSome_iff_ne_none] at h2
    simp only [Option.isNone_iff_eq_none]
    exact h2
  refine ⟨?_, ?_, ?_, ?_, ?_, ?_⟩
  · intro h
    simp [run_foreign_key_check, h]
  · intro refRows hcache hne hex
    obtain ⟨c, hc, hcnot⟩ := hex
    have hreff : refRows.isEmpty = false := by
      simpa [List.isEmpty_iff] using hne
    have hmiss : (rule.target_columns.filter
        (fun c => decide (c ∉ df.cols))).isEmpty = false := by
      have : c ∈ rule.target_columns.filter (fun c => decide (c ∉ df.cols)) :=
        List.mem_filter.2 ⟨hc, by simpa using hcnot⟩
      simpa [List.isEmpty_iff] using List.ne_nil_of_mem this
    simp only [run_foreign_key_check, hcache, hreff, hmiss, Bool.not_false,
      Bool.not_true, Bool.false_eq_true, Bool.true_eq_false, eq_self_iff_true,
      if_true, if_false, ite_true, ite_false]
    constructor <;> trivial
  · intro refRows hcache hne hcols hallow hex
    obtain ⟨r0, hr0, hr0n⟩ := hex
    have hreff : refRows.isEmpty = false := by
      simpa [List.isEmpty_iff] using hne
    have hmiss0 : rule.target_columns.filter (fun c => decide (c ∉ df.cols)) = [] := by
      rw [List.filter_eq_nil_iff]
      intro c hc
      simpa using hcols c hc
    have hnulls : (df.rows.filter
        (fun r => rule.target_columns.any (fun c => (r c).isNone))).isEmpty = false := by
      have : r0 ∈ df.rows.filter
          (fun r => rule.target_columns.any (fun c => (r c).isNone)) :=
        List.mem_filter.2 ⟨hr0, hr0n⟩
      simpa [List.isEmpty_iff] using List.ne_nil_of_mem this
    constructor
    · simp only [run_foreign_key_check, hcache, hreff, hmiss0, hallow, hnulls,
        List.isEmpty_nil, Bool.not_false, Bool.not_true, Bool.false_eq_true,
        if_true, if_false, ite_true, ite_false]
      split <;> [rfl; (split <;> rfl)]
    · intro s hs
      simp only [run_foreign_key_check, hcache, hreff, hmiss0, hallow, hnulls,
        List.isEmpty_nil, Bool.not_false, Bool.not_true, Bool.false_eq_true,
        if_true, if_false, ite_true, ite_false] at hs
      have hs' : some (((df.rows.filter
          (fun r => rule.target_columns.any (fun c => (r c).isNone))).take 10).map
            (projRecord (dedupKeepFirst (rule.target_columns ++
              ctx.filter (fun c => decide (c ∈ df.cols)))))) = some s := by
        revert hs
        split <;> [(intro hs; exact hs); (split <;> intro hs <;> exact hs)]
      injection hs' with hs''
      rw [← hs'']
      simpa using List.length_take_le 10 _
  · intro refRows hcache hne hcols
    have hreff : refRows.isEmpty = false := by
      simpa [List.isEmpty_iff] using hne
    have hmiss0 : rule.target_columns.filter (fun c => decide (c ∉ df.cols)) = [] := by
      rw [List.filter_eq_nil_iff]
      intro c hc
      simpa using hcols c hc
    by_cases hsub : (df.rows.filter
        (fun r => rule.target_columns.all (fun c => (r c).isSome))) = []
    · have hsubE : (df.rows.filter
          (fun r => rule.target_columns.all (fun c => (r c).isSome))).isEmpty = true := by
        simp [hsub]
      refine iff_of_false ?_ ?_
      · simp only [run_foreign_key_check, hcache, hreff, hmiss0, hsubE,
          List.isEmpty_nil, Bool.not_false, Bool.not_true, Bool.false_eq_true,
          if_true, if_false, ite_true, ite_false]
        simp
      · rintro ⟨r, hr, hall, hnot⟩
        have : r ∈ df.rows.filter
            (fun r => rule.target_columns.all (fun c => (r c).isSome)) :=
          List.mem_filter.2 ⟨hr, hall⟩
        rw [hsub] at this
        simp at this
    · have hsubE : (df.rows.filter
          (fun r => rule.target_columns.all (fun c => (r c).isSome))).isEmpty = false := by
        simpa [List.isEmpty_iff] using hsub
      have hchar := collectUnmatched_nil_iff
        (fkReferenceKeys rule.reference_columns refRows) rule.target_columns
        (dedupKeepFirst (rule.target_columns ++
          ctx.filter (fun c => decide (c ∈ df.cols))))
        (df.rows.filter (fun r => rule.target_columns.all (fun c => (r c).isSome)))
      by_cases hu : (collectUnmatched
          (fkReferenceKeys rule.reference_columns refRows) rule.target_columns
          (dedupKeepFirst (rule.target_columns ++
            ctx.filter (fun c => decide (c ∈ df.cols))))
          (df.rows.filter
            (fun r => rule.target_columns.all (fun c => (r c).isSome)))).2 = []
      · refine iff_of_false ?_ ?_
        · simp only [run_foreign_key_check, hcache, hreff, hmiss0, hsubE, hu,
            List.isEmpty_nil, Bool.not_false, Bool.not_true, Bool.false_eq_true,
            if_true, if_false, ite_true, ite_false]
          simp
        · rintro ⟨r, hr, hall, hnot⟩
          have hrs : r ∈ df.rows.filter
              (fun r => rule.target_columns.all (fun c => (r c).isSome)) :=
            List.mem_filter.2 ⟨hr, hall⟩
          rcases hchar.1 hu r hrs with h' | h'
          · rw [hallnot r hall] at h'
            exact Bool.noConfusion h'
          · exact hnot h'
      · refine iff_of_true ?_ ?_
        · have huE : (collectUnmatched
              (fkReferenceKeys rule.reference_columns refRows) rule.target_columns
              (dedupKeepFirst (rule.target_columns ++
                ctx.filter (fun c => decide (c ∈ df.cols))))
              (df.rows.filter
                (fun r => rule.target_columns.all
                  (fun c => (r c).isSome)))).2.isEmpty = false := by
            simpa [List.isEmpty_iff] using hu
          simp only [run_foreign_key_check, hcache, hreff, hmiss0, hsubE, huE,
            List.isEmpty_nil, Bool.not_false, Bool.not_true, Bool.false_eq_true,
            if_true, if_false, ite_true, ite_false]
        · have := (not_iff_not.2 hchar).1 hu
          push_neg at this
          obtain ⟨r, hrs, hskip⟩ := this
          obtain ⟨hr, hall⟩ := List.mem_filter.1 hrs
          exact ⟨r, hr, hall, hskip.2⟩
  · intro s hs
    simp only [run_foreign_key_check] at hs
    split at hs
    · exact Option.noConfusion hs
    · split at hs
      · exact Option.noConfusion hs
      · split at hs
        · exact Option.noConfusion hs
        · split at hs
          · split at hs
            · split at hs
              · exact Option.noConfusion hs
              · exact Option.noConfusion hs
            · exact Option.noConfusion hs
          · split at hs
            · injection hs with hs'
              rw [← hs']
              simpa using List.length_take_le 10 _
            · split at hs
              · split at hs
                · exact Option.noConfusion hs
                · exact Option.noConfusion hs
              · exact Option.noConfusion hs
  · intro rk tc cc rows
    exact collectUnmatched_foldl_inv rk tc cc rows ([], []) (by simp) (by simp)

/-- Witness for C3: a rule whose reference dataset is absent from the cache
is reported as skipped. -/
theorem foreign_key_check_spec_witness :
    (run_foreign_key_check (fun _ => none) [] ⟨["a"], []⟩
      ⟨["a"], "ref", ["a"], true⟩).status = "skipped" :=
  ((foreign_key_check_spec (fun _ => none) [] ⟨["a"], []⟩
      ⟨["a"], "ref", ["a"], true⟩).1 rfl).1

/-- C10: with `allow_null` false, rows with a null target value are silently
dropped before matching: the finding never carries a null count or sample,
and the result equals the check run on the dataframe with those rows
removed (so they can never cause a failure). -/
theorem fk_allow_null_false_silent (cache : String → Option (List Row))
    (ctx : List String) (df : DataFrame) (rule : ForeignKeyRule)
    (hallow : rule.allow_null = false) :
    (run_foreign_key_check cache ctx df rule).null_count = none ∧
    (run_foreign_key_check cache ctx df rule).null_samples = none ∧
    run_foreign_key_check cache ctx df rule =
      run_foreign_key_check cache ctx
        ⟨df.cols, df.rows.filter
          (fun r => rule.target_columns.all (fun c => (r c).isSome))⟩ rule := by
  have hff : (df.rows.filter
        (fun r => rule.target_columns.all (fun c => (r c).isSome))).filter
      (fun r => rule.target_columns.all (fun c => (r c).isSome)) =
      df.rows.filter (fun r => rule.target_columns.all (fun c => (r c).isSome)) := by
    rw [List.filter_filter]
    apply List.filter_congr
    intro a ha
    exact Bool.and_self _
  refine ⟨?_, ?_, ?_⟩
  · simp only [run_foreign_key_check, hallow, Bool.false_eq_true, if_false,
      ite_false]
    split
    · rfl
    · split
      · rfl
      · split
        · rfl
        · split
          · rfl
          · split
            · rfl
            · rfl
  · simp only [run_foreign_key_check, hallow, Bool.false_eq_true, if_false,
      ite_false]
    split
    · rfl
    · split
      · rfl
      · split
        · rfl
        · split
          · rfl
          · split
            · rfl
            · rfl
  · simp only [run_foreign_key_check, hallow, Bool.false_eq_true, if_false,
      ite_false]
    rw [hff]

/-- Witness for C10: concrete rule and dataframe with a null target row. -/
theorem fk_allow_null_false_silent_witness :
    (run_foreign_key_check (fun _ => some [fun _ => some "k"]) []
      ⟨["a"], [fun _ => none]⟩ ⟨["a"], "ref", ["a"], false⟩).null_count = none :=
  (fk_allow_null_false_silent (fun _ => some [fun _ => some "k"]) []
    ⟨["a"], [fun _ => none]⟩ ⟨["a"], "ref", ["a"], false⟩ rfl).1

/-! ## IssueLedger (`validation.register_data_issue`, lines 189-198;
`_consume_dataset_issues`, lines 536-540; `_collect_dataset_issues`, lines
543-553) -/

/-- A `RemediationEvent` entry of the `DATA_ISSUES` ledger; the details dict
and timestamp are abstracted to discrete payloads. -/
structure RemediationEvent where
  dataset : String
  issue_type : String
  details : Nat
  timestamp : Nat
deriving DecidableEq, Repr

/-- `register_data_issue`: append an event to the process-scoped ledger. -/
def register_data_issue (ledger : List RemediationEvent)
    (dataset issue_type : String) (details timestamp : Nat) :
    List RemediationEvent :=
  ledger ++ [{ dataset := dataset, issue_type := issue_type,
               details := details, timestamp := timestamp }]

/-- `_consume_dataset_issues`: return the dataset's events and rewrite the
shared ledger without any entry equal to a matched one. -/
def consume_dataset_issues (dataset_name : String)
    (ledger : List RemediationEvent) :
    List RemediationEvent × List RemediationEvent :=
  let matched := ledger.filter (fun e => e.dataset == dataset_name)
  if matched.isEmpty then (matched, ledger)
  else (matched, ledger.filter (fun e => decide (e ∉ matched)))

/-- `_collect_dataset_issues`: drain the dataset's events into its summary,
dropping `value_coercion` events, keeping any pre-existing issues. -/
def collect_dataset_issues (dataset_name : String)
    (existing : List RemediationEvent) (ledger : List RemediationEvent) :
    List RemediationEvent × List RemediationEvent :=
  let consumed := consume_dataset_issues dataset_name ledger
  if consumed.1.isEmpty then (existing, consumed.2)
  else (existing ++ consumed.1.filter (fun e => e.issue_type != "value_coercion"),
    consumed.2)

/-- Draining keeps the dataset filter as the matched list. -/
theorem consume_dataset_issues_fst (dataset_name : String)
    (ledger : List RemediationEvent) :
    (consume_dataset_issues dataset_name ledger).1 =
      ledger.filter (fun e => e.dataset == dataset_name) := by
  simp only [consume_dataset_issues]
  split <;> rfl

/-- Draining rewrites the ledger to exactly the other datasets' events. -/
theorem consume_dataset_issues_snd (dataset_name : String)
    (ledger : List RemediationEvent) :
    (consume_dataset_issues dataset_name ledger).2 =
      ledger.filter (fun e => e.dataset != dataset_name) := by
  simp only [consume_dataset_issues]
  by_cases hm : (ledger.filter (fun e => e.dataset == dataset_name)).isEmpty = true
  · rw [if_pos hm]
    have hall : ∀ e ∈ ledger, ¬ (e.dataset == dataset_name) = true := by
      rw [← List.filter_eq_nil_iff]
      exact List.isEmpty_iff.1 hm
    symm
    rw [List.filter_eq_self]
    intro e he
    simpa using hall e he
  · rw [if_neg hm]
    apply List.filter_congr
    intro e he
    by_cases hd : e.dataset = dataset_name
    · have hmem : e ∈ ledger.filter (fun e => e.dataset == dataset_name) :=
        List.mem_filter.2 ⟨he, by simpa using hd⟩
      simp [hmem, hd]
    · have hmem : e ∉ ledger.filter (fun e => e.dataset == dataset_name) := by
        intro hmem
        exact hd (by simpa using (List.mem_filter.1 hmem).2)
      simp [hmem, hd]

/-- The summary side of `_collect_dataset_issues` is untouched when the
drain finds nothing. -/
theorem collect_dataset_issues_of_empty (dataset_name : String)
    (existing : List RemediationEvent) (ledger : List RemediationEvent)
    (h : (consume_dataset_issues dataset_name ledger).1 = []) :
    (collect_dataset_issues dataset_name existing ledger).1 = existing := by
  simp [collect_dataset_issues, h]

/-- C9: collecting a dataset's issues drains exactly that dataset's events
from the shared ledger: the matched list is precisely the events registered
for the dataset, no event is drained into another dataset's collection, and
a second drain or collection for the same dataset finds nothing and leaves
the summary unchanged (no double-counting). -/
theorem issue_ledger_drain_spec (dataset_name : String)
    (existing : List RemediationEvent) (ledger : List RemediationEvent) :
    ((consume_dataset_issues dataset_name ledger).1 =
      ledger.filter (fun e => e.dataset == dataset_name)) ∧
    ((consume_dataset_issues dataset_name ledger).2 =
      ledger.filter (fun e => e.dataset != dataset_name)) ∧
    (∀ e ∈ ledger, ∀ other, other ≠ e.dataset →
      e ∉ (consume_dataset_issues other ledger).1) ∧
    ((consume_dataset_issues dataset_name
      (consume_dataset_issues dataset_name ledger).2).1 = []) ∧
    ((collect_dataset_issues dataset_name
        (collect_dataset_issues dataset_name existing ledger).1
        (collect_dataset_issues dataset_name existing ledger).2).1 =
      (collect_dataset_issues dataset_name existing ledger).1) := by
  have hcollect_snd : ∀ ex : List RemediationEvent,
      (collect_dataset_issues dataset_name ex ledger).2 =
        (consume_dataset_issues dataset_name ledger).2 := by
    intro ex
    simp only [collect_dataset_issues]
    split <;> rfl
  have hsecond : (consume_dataset_issues dataset_name
      (consume_dataset_issues dataset_name ledger).2).1 = [] := by
    rw [consume_dataset_issues_fst, consume_dataset_issues_snd,
      List.filter_filter, List.filter_eq_nil_iff]
    intro e he
    simp
  refine ⟨consume_dataset_issues_fst dataset_name ledger,
    consume_dataset_issues_snd dataset_name ledger, ?_, hsecond, ?_⟩
  · intro e he other hother hmem
    rw [consume_dataset_issues_fst] at hmem
    have hd : e.dataset = other := by simpa using (List.mem_filter.1 hmem).2
    exact hother hd.symm
  · apply collect_dataset_issues_of_empty
    rw [hcollect_snd]
    exact hsecond

/-- Witness for C9: a concrete two-dataset ledger drains per dataset. -/
theorem issue_ledger_drain_spec_witness :
    (⟨"journeys", "deduplicated_rows", 1, 0⟩ : RemediationEvent) ∉
      (consume_dataset_issues "castaways"
        [⟨"journeys", "deduplicated_rows", 1, 0⟩,
         ⟨"castaways", "deduplicated_rows", 2, 1⟩]).1 :=
  (issue_ledger_drain_spec "castaways" []
      [⟨"journeys", "deduplicated_rows", 1, 0⟩,
       ⟨"castaways", "deduplicated_rows", 2, 1⟩]).2.2.1
    (⟨"journeys", "deduplicated_rows", 1, 0⟩ : RemediationEvent) (by decide)
    "castaways" (by decide)

/-! ## UpsertEngine (`db_utils._upsert_dataframe`, lines 2042-2112) -/

/-- The ON CONFLICT clause of the generated statement. -/
inductive ConflictClause where
  | noConflict : ConflictClause
  | doNothing (cols : List String) : ConflictClause
  | doUpdate (cols : List String) (assignments : List (String × String)) :
      ConflictClause
deriving DecidableEq, Repr

/-- The batched multi-row INSERT statement `_upsert_dataframe` composes
(db_utils.py lines 2056-2093), as structured SQL. -/
structure InsertStatement where
  schema : String
  table : String
  columns : List String
  conflict : ConflictClause
  returningColumns : List String
  returningFlag : String
deriving DecidableEq, Repr

/-- Statement construction of `_upsert_dataframe` (lines 2056-2093): with a
non-empty conflict set, update every non-key column from EXCLUDED (or do
nothing when there is none); otherwise a plain insert.  The RETURNING
clause carries the conflict-key columns (the first column when there is no
conflict set) plus the `(xmax = 0)` discriminator. -/
def build_upsert_statement (schemaName tableName : String)
    (columns conflictColumns : List String) : InsertStatement :=
  { schema := schemaName
    table := tableName
    columns := columns
    conflict :=
      if !conflictColumns.isEmpty then
        (let update_cols := columns.filter (fun c => decide (c ∉ conflictColumns))
         if !update_cols.isEmpty then
           .doUpdate conflictColumns
             (update_cols.map (fun c => (c, "EXCLUDED." ++ c)))
         else .doNothing conflictColumns)
      else .noConflict
    returningColumns :=
      if !conflictColumns.isEmpty then conflictColumns else columns.take 1
    returningFlag := "(xmax = 0) AS inserted_flag" }

/-- The classification loop of `_upsert_dataframe` (lines 2100-2112): split
the returned rows by the `inserted_flag` discriminator and report counts as
list lengths. -/
def classify_upsert_results (results : List (List Cell × Bool)) :
    Nat × Nat × List (List Cell) × List (List Cell) :=
  let inserted_keys := (results.filter (fun r => r.2)).map Prod.fst
  let updated_keys := (results.filter (fun r => !r.2)).map Prod.fst
  (inserted_keys.length, updated_keys.length, inserted_keys, updated_keys)

/-- Value of a named column in a record laid out over `columns`. -/
def lookupCell (pairs : List (String × Cell)) (c : String) : Cell :=
  match pairs.find? (fun p => p.1 = c) with
  | some p => p.2
  | none => none

/-- The conflict-key tuple a record presents. -/
def keyProj (columns cols : List String) (rec : List Cell) : List Cell :=
  cols.map (lookupCell (columns.zip rec))

/-- The RETURNING payload for a row: the returning columns' values. -/
def retKey (st : InsertStatement) (rec : List Cell) : List Cell :=
  st.returningColumns.map (lookupCell (st.columns.zip rec))

/-- Apply a DO UPDATE assignment list: assigned columns take the incoming
(EXCLUDED) value, the rest keep the stored value. -/
def applyAssignments (columns : List String) (assigns : List (String × String))
    (old incoming : List Cell) : List Cell :=
  (columns.zip (old.zip incoming)).map
    (fun p => if assigns.any (fun a => a.1 = p.1) then p.2.2 else p.2.1)

/-- Replace the first element satisfying `p` by its image under `f`. -/
def replaceFirst {α : Type} (p : α → Bool) (f : α → α) : List α → List α
  | [] => []
  | x :: xs => if p x then f x :: xs else x :: replaceFirst p f xs

/-- Modelled from the spec: per-record execution of the generated statement
against the external PostgreSQL store (§4.4, §6 of the spec; the store
itself is outside the repository).  A conflicting row is updated in place
and returned with `xmax ≠ 0`; a fresh row is inserted and returned with
`xmax = 0`; ON CONFLICT DO NOTHING leaves the conflicting row untouched and,
since the row is not affected, contributes nothing to RETURNING. -/
def exec_upsert_step (st : InsertStatement) (state : List (List Cell))
    (rec : List Cell) : List (List Cell) × List (List Cell × Bool) :=
  match st.conflict with
  | .noConflict => (state ++ [rec], [(retKey st rec, true)])
  | .doNothing cols =>
    if state.any (fun s =>
        keyProj st.columns cols s == keyProj st.columns cols rec) then
      (state, [])
    else (state ++ [rec], [(retKey st rec, true)])
  | .doUpdate cols assigns =>
    if state.any (fun s =>
        keyProj st.columns cols s == keyProj st.columns cols rec) then
      (replaceFirst (fun s =>
          keyProj st.columns cols s == keyProj st.columns cols rec)
        (fun old => applyAssignments st.columns assigns old rec) state,
       [(retKey st rec, false)])
    else (state ++ [rec], [(retKey st rec, true)])

/-- Modelled from the spec: sequential execution of the batch, returning
the final table state and the RETURNING rows in order. -/
def exec_upsert (st : InsertStatement) (state : List (List Cell)) :
    List (List Cell) → List (List Cell) × List (List Cell × Bool)
  | [] => (state, [])
  | rec :: recs =>
    let step := exec_upsert_step st state rec
    let rest := exec_upsert st step.1 recs
    (rest.1, step.2 ++ rest.2)

/-- `_upsert_dataframe`: build the statement, execute the batch, classify
the returned rows into inserted and updated keys. -/
def upsert_dataframe (schemaName tableName : String)
    (state : List (List Cell)) (columns : List String)
    (records : List (List Cell)) (conflictColumns : List String) :
    List (List Cell) × (Nat × Nat × List (List Cell) × List (List Cell)) :=
  let st := build_upsert_statement schemaName tableName columns conflictColumns
  let run := exec_upsert st state records
  (run.1, classify_upsert_results run.2)

/-- The flag-based split partitions the returned rows. -/
theorem length_filter_bool_add {α : Type} (p : α → Bool) (l : List α) :
    (l.filter p).length + (l.filter (fun a => !p a)).length = l.length := by
  induction l with
  | nil => rfl
  | cons x xs ih =>
    cases hx : p x <;> simp [List.filter_cons, hx] <;> omega

/-- C4: with a non-empty conflict set the statement carries an ON CONFLICT
clause updating exactly the non-key columns from EXCLUDED (DO NOTHING when
there is none) and returns the conflict-key columns plus the `xmax = 0`
discriminator; with an empty conflict set it is a plain insert; the
reported counts are the lengths of the inserted/updated key lists, which
partition the returned rows by the flag. -/
theorem upsert_statement_spec (schemaName tableName : String)
    (columns conflictColumns : List String) (results : List (List Cell × Bool))
    (hconf : conflictColumns ≠ []) :
    (columns.filter (fun c => decide (c ∉ conflictColumns)) ≠ [] →
      (build_upsert_statement schemaName tableName columns conflictColumns).conflict =
        .doUpdate conflictColumns
          ((columns.filter (fun c => decide (c ∉ conflictColumns))).map
            (fun c => (c, "EXCLUDED." ++ c)))) ∧
    (columns.filter (fun c => decide (c ∉ conflictColumns)) = [] →
      (build_upsert_statement schemaName tableName columns conflictColumns).conflict =
        .doNothing conflictColumns) ∧
    (∀ assigns,
      (build_upsert_statement schemaName tableName columns conflictColumns).conflict =
        .doUpdate conflictColumns assigns →
      ∀ c, ((c, "EXCLUDED." ++ c) ∈ assigns ↔ (c ∈ columns ∧ c ∉ conflictColumns))) ∧
    ((build_upsert_statement schemaName tableName columns
        conflictColumns).returningColumns = conflictColumns) ∧
    ((build_upsert_statement schemaName tableName columns
        conflictColumns).returningFlag = "(xmax = 0) AS inserted_flag") ∧
    ((build_upsert_statement schemaName tableName columns []).conflict =
      .noConflict) ∧
    ((classify_upsert_results results).1 =
        (classify_upsert_results results).2.2.1.length ∧
      (classify_upsert_results results).2.1 =
        (classify_upsert_results results).2.2.2.length) ∧
    ((classify_upsert_results results).2.2.1 =
        (results.filter (fun r => r.2)).map Prod.fst ∧
      (classify_upsert_results results).2.2.2 =
        (results.filter (fun r => !r.2)).map Prod.fst ∧
      (classify_upsert_results results).2.2.1.length +
        (classify_upsert_results results).2.2.2.length = results.length) := by
  have hc : conflictColumns.isEmpty = false := by
    cases conflictColumns with
    | nil => exact absurd rfl hconf
    | cons a l => rfl
  refine ⟨?_, ?_, ?_, ?_, ?_, ?_, ⟨rfl, rfl⟩, ?_⟩
  · intro hupd
    have hu : (columns.filter
        (fun c => decide (c ∉ conflictColumns))).isEmpty = false := by
      simpa [List.isEmpty_iff] using hupd
    simp only [build_upsert_statement, hc, hu, Bool.not_false, eq_self_iff_true,
      if_true, ite_true]
  · intro hupd
    have hu : (columns.filter
        (fun c => decide (c ∉ conflictColumns))).isEmpty = true := by
      rw [hupd]
      rfl
    simp only [build_upsert_statement, hc, hu, Bool.not_false, Bool.not_true,
      eq_self_iff_true, if_true, ite_true, Bool.false_eq_true, if_false,
      ite_false]
  · intro assigns hass c
    by_cases hupd : columns.filter (fun c => decide (c ∉ conflictColumns)) = []
    · have hnoex : ¬ ∃ x ∈ columns, x ∉ conflictColumns := by
        rw [List.filter_eq_nil_iff] at hupd
        rintro ⟨x, hx, hnx⟩
        exact hnx (by simpa using hupd x hx)
      simp [build_upsert_statement, hc, hupd, hnoex] at hass
    · have hu : (columns.filter
          (fun c => decide (c ∉ conflictColumns))).isEmpty = false := by
        simpa [List.isEmpty_iff] using hupd
      simp only [build_upsert_statement, hc, hu, Bool.not_false, if_true,
        ite_true, Bool.false_eq_true, if_false, ite_false, eq_self_iff_true] at hass
      injection hass with h1 h2
      subst h2
      constructor
      · intro hmem
        rw [List.mem_map] at hmem
        obtain ⟨c', hc', he⟩ := hmem
        have : c' = c := congrArg Prod.fst he
        subst this
        have := List.mem_filter.1 hc'
        exact ⟨this.1, by simpa using this.2⟩
      · rintro ⟨h1, h2⟩
        rw [List.mem_map]
        exact ⟨c, List.mem_filter.2 ⟨h1, by simpa using h2⟩, rfl⟩
  · simp [build_upsert_statement, hc]
  · rfl
  · simp [build_upsert_statement]
  · refine ⟨rfl, rfl, ?_⟩
    simp only [classify_upsert_results, List.length_map]
    exact length_filter_bool_add _ _

/-- Witness for C4: concrete statement with one key and one payload column. -/
theorem upsert_statement_spec_witness :
    (build_upsert_statement "bronze" "castaways" ["id", "name"] ["id"]).conflict =
      .doUpdate ["id"] [("name", "EXCLUDED.name")] :=
  (upsert_statement_spec "bronze" "castaways" ["id", "name"] ["id"] []
    (by decide)).1 (by decide)

/-- Columns without an assignment keep their stored value. -/
theorem lookupCell_applyAssignments (columns : List String)
    (assigns : List (String × String)) (old rec : List Cell) (c : String)
    (hc : assigns.any (fun a => a.1 = c) = false)
    (hold : old.length = columns.length) (hrec : rec.length = columns.length) :
    lookupCell (columns.zip (applyAssignments columns assigns old rec)) c =
      lookupCell (columns.zip old) c := by
  induction columns generalizing old rec with
  | nil => rfl
  | cons c0 cs ih =>
    cases old with
    | nil => simp at hold
    | cons o os =>
      cases rec with
      | nil => simp at hrec
      | cons n ns =>
        have hstep : applyAssignments (c0 :: cs) assigns (o :: os) (n :: ns) =
            (if assigns.any (fun a => a.1 = c0) then n else o) ::
              applyAssignments cs assigns os ns := by
          simp [applyAssignments]
        rw [hstep]
        by_cases h0 : c0 = c
        · subst h0
          rw [show assigns.any (fun a => a.1 = c0) = false from hc]
          simp [lookupCell, List.find?]
        · simp only [List.zip_cons_cons, lookupCell, List.find?, h0,
            decide_eq_true_eq, if_neg h0, decide_eq_false h0]
          have := ih os ns (by simpa using hold) (by simpa using hrec)
          simpa [lookupCell] using this

/-- Updating preserves row width. -/
theorem applyAssignments_length (columns : List String)
    (assigns : List (String × String)) (old rec : List Cell)
    (hold : old.length = columns.length) (hrec : rec.length = columns.length) :
    (applyAssignments columns assigns old rec).length = columns.length := by
  simp [applyAssignments, hold, hrec]

/-- A DO UPDATE whose assignments avoid the conflict columns leaves a row's
conflict key unchanged. -/
theorem keyProj_applyAssignments (columns cols : List String)
    (assigns : List (String × String)) (old rec : List Cell)
    (hass : ∀ a ∈ assigns, a.1 ∉ cols)
    (hold : old.length = columns.length) (hrec : rec.length = columns.length) :
    keyProj columns cols (applyAssignments columns assigns old rec) =
      keyProj columns cols old := by
  unfold keyProj
  apply List.map_congr_left
  intro c hcmem
  apply lookupCell_applyAssignments
  · rw [← Bool.not_eq_true, List.any_eq_true]
    rintro ⟨a, ha, hac⟩
    have hac' : a.1 = c := of_decide_eq_true hac
    exact hass a ha (hac' ▸ hcmem)
  · exact hold
  · exact hrec

/-- Every element of `replaceFirst p f l` is an element of `l` or the image
of an element satisfying `p`. -/
theorem replaceFirst_mem {α : Type} (p : α → Bool) (f : α → α) (l : List α) :
    ∀ y ∈ replaceFirst p f l, y ∈ l ∨ ∃ x ∈ l, p x = true ∧ y = f x := by
  induction l with
  | nil => intro y hy; cases hy
  | cons hd xs ih =>
    intro y hy
    rw [replaceFirst] at hy
    by_cases hx : p hd = true
    · rw [if_pos hx] at hy
      rcases List.mem_cons.1 hy with heq | hy'
      · exact Or.inr ⟨hd, List.mem_cons_self hd xs, hx, heq⟩
      · exact Or.inl (List.mem_cons_of_mem hd hy')
    · rw [if_neg hx] at hy
      rcases List.mem_cons.1 hy with heq | hy'
      · exact Or.inl (List.mem_cons.2 (Or.inl heq))
      · rcases ih y hy' with h | ⟨z, hz, hpz, hyz⟩
        · exact Or.inl (List.mem_cons_of_mem hd h)
        · exact Or.inr ⟨z, List.mem_cons_of_mem hd hz, hpz, hyz⟩

/-- When the replacement preserves a key function, every key present before
`replaceFirst` is still present after it. -/
theorem replaceFirst_key_cover {α β : Type} (κ : α → β) (p : α → Bool)
    (f : α → α) (l : List α) (h : ∀ x ∈ l, p x = true → κ (f x) = κ x) :
    ∀ x ∈ l, ∃ y ∈ replaceFirst p f l, κ y = κ x := by
  induction l with
  | nil => intro x hx; cases hx
  | cons hd xs ih =>
    intro x hx
    rw [replaceFirst]
    by_cases ha : p hd = true
    · rw [if_pos ha]
      rcases List.mem_cons.1 hx with heq | hx'
      · refine ⟨f hd, List.mem_cons_self _ _, ?_⟩
        rw [heq]
        exact h hd (List.mem_cons_self hd xs) ha
      · exact ⟨x, List.mem_cons_of_mem _ hx', rfl⟩
    · rw [if_neg ha]
      rcases List.mem_cons.1 hx with heq | hx'
      · exact ⟨x, List.mem_cons.2 (Or.inl heq), rfl⟩
      · obtain ⟨y, hy, hky⟩ := ih
          (fun z hz hpz => h z (List.mem_cons_of_mem hd hz) hpz) x hx'
        exact ⟨y, List.mem_cons_of_mem hd hy, hky⟩

/-- A DO UPDATE replacement keeps rows well-formed and keeps every conflict
key that was present in the table. -/
theorem replace_state_facts (st : InsertStatement) (cols : List String)
    (assigns : List (String × String)) (state : List (List Cell))
    (rec : List Cell) (hass : ∀ a ∈ assigns, a.1 ∉ cols)
    (hs : ∀ s ∈ state, s.length = st.columns.length)
    (hrl : rec.length = st.columns.length) :
    (∀ s ∈ replaceFirst
        (fun s => keyProj st.columns cols s == keyProj st.columns cols rec)
        (fun old => applyAssignments st.columns assigns old rec) state,
      s.length = st.columns.length) ∧
    (∀ x ∈ state, ∃ y ∈ replaceFirst
        (fun s => keyProj st.columns cols s == keyProj st.columns cols rec)
        (fun old => applyAssignments st.columns assigns old rec) state,
      keyProj st.columns cols y = keyProj st.columns cols x) := by
  constructor
  · intro y hy
    rcases replaceFirst_mem _ _ state y hy with h | ⟨x, hx, hpx, hyx⟩
    · exact hs y h
    · rw [hyx]
      exact applyAssignments_length _ _ _ _ (hs x hx) hrl
  · apply replaceFirst_key_cover
    intro x hx hpx
    exact keyProj_applyAssignments _ _ _ _ _ hass (hs x hx) hrl

/-- Executing a DO UPDATE batch keeps rows well-formed, keeps every key the
table already had, and leaves every processed record's key present. -/
theorem exec_upsert_doUpdate_inv (st : InsertStatement) (cols : List String)
    (assigns : List (String × String))
    (hst : st.conflict = .doUpdate cols assigns)
    (hass : ∀ a ∈ assigns, a.1 ∉ cols) :
    ∀ (records state : List (List Cell)),
    (∀ s ∈ state, s.length = st.columns.length) →
    (∀ r ∈ records, r.length = st.columns.length) →
    ((∀ s ∈ (exec_upsert st state records).1, s.length = st.columns.length) ∧
     (∀ k, (∃ s ∈ state, keyProj st.columns cols s = k) →
        ∃ s ∈ (exec_upsert st state records).1, keyProj st.columns cols s = k) ∧
     (∀ r ∈ records, ∃ s ∈ (exec_upsert st state records).1,
        keyProj st.columns cols s = keyProj st.columns cols r)) := by
  intro records
  induction records with
  | nil =>
    intro state hs hr
    refine ⟨?_, ?_, ?_⟩
    · simpa [exec_upsert] using hs
    · intro k hk
      simpa [exec_upsert] using hk
    · intro r hr'
      cases hr'
  | cons rec recs ih =>
    intro state hs hr
    have hreclen : rec.length = st.columns.length := hr rec (List.mem_cons_self _ _)
    have hrecs : ∀ r ∈ recs, r.length = st.columns.length :=
      fun r h => hr r (List.mem_cons_of_mem _ h)
    simp only [exec_upsert, exec_upsert_step, hst]
    by_cases hconf : state.any (fun s =>
        keyProj st.columns cols s == keyProj st.columns cols rec) = true
    · rw [if_pos hconf]
      obtain ⟨hs1, hcover⟩ :=
        replace_state_facts st cols assigns state rec hass hs hreclen
      obtain ⟨A, B, C⟩ := ih (replaceFirst
        (fun s => keyProj st.columns cols s == keyProj st.columns cols rec)
        (fun old => applyAssignments st.columns assigns old rec) state) hs1 hrecs
      refine ⟨A, ?_, ?_⟩
      · intro k hk
        obtain ⟨s0, hs0, hks0⟩ := hk
        obtain ⟨y, hy, hky⟩ := hcover s0 hs0
        exact B k ⟨y, hy, hky.trans hks0⟩
      · intro r hrmem
        rcases List.mem_cons.1 hrmem with heq | hmem
        · obtain ⟨s0, hs0, hps0⟩ := List.any_eq_true.1 hconf
          have hkeq : keyProj st.columns cols s0 = keyProj st.columns cols rec :=
            eq_of_beq hps0
          obtain ⟨y, hy, hky⟩ := hcover s0 hs0
          rw [heq]
          exact B _ ⟨y, hy, hky.trans hkeq⟩
        · exact C r hmem
    · rw [if_neg hconf]
      have hs1 : ∀ s ∈ state ++ [rec], s.length = st.columns.length := by
        intro y hy
        rcases List.mem_append.1 hy with h | h
        · exact hs y h
        · rw [List.mem_singleton.1 h]
          exact hreclen
      obtain ⟨A, B, C⟩ := ih (state ++ [rec]) hs1 hrecs
      refine ⟨A, ?_, ?_⟩
      · intro k hk
        obtain ⟨s0, hs0, hks0⟩ := hk
        exact B k ⟨s0, List.mem_append.2 (Or.inl hs0), hks0⟩
      · intro r hrmem
        rcases List.mem_cons.1 hrmem with heq | hmem
        · rw [heq]
          exact B _ ⟨rec, List.mem_append.2 (Or.inr (List.mem_singleton.2 rfl)), rfl⟩
        · exact C r hmem

/-- When every record's conflict key is already present, executing the DO
UPDATE batch returns exactly one updated-flagged row per record. -/
theorem exec_upsert_doUpdate_results (st : InsertStatement) (cols : List String)
    (assigns : List (String × String))
    (hst : st.conflict = .doUpdate cols assigns)
    (hass : ∀ a ∈ assigns, a.1 ∉ cols) :
    ∀ (records state : List (List Cell)),
    (∀ s ∈ state, s.length = st.columns.length) →
    (∀ r ∈ records, r.length = st.columns.length) →
    (∀ r ∈ records, ∃ s ∈ state,
      keyProj st.columns cols s = keyProj st.columns cols r) →
    (exec_upsert st state records).2 =
      records.map (fun r => (retKey st r, false)) := by
  intro records
  induction records with
  | nil =>
    intro state _ _ _
    simp [exec_upsert]
  | cons rec recs ih =>
    intro state hs hr hk
    have hreclen : rec.length = st.columns.length := hr rec (List.mem_cons_self _ _)
    have hrecs : ∀ r ∈ recs, r.length = st.columns.length :=
      fun r h => hr r (List.mem_cons_of_mem _ h)
    have hconf : state.any (fun s =>
        keyProj st.columns cols s == keyProj st.columns cols rec) = true := by
      obtain ⟨s0, hs0, hks0⟩ := hk rec (List.mem_cons_self _ _)
      exact List.any_eq_true.2 ⟨s0, hs0, beq_iff_eq.2 hks0⟩
    simp only [exec_upsert, exec_upsert_step, hst]
    rw [if_pos hconf]
    obtain ⟨hs1, hcover⟩ :=
      replace_state_facts st cols assigns state rec hass hs hreclen
    have hk1 : ∀ r ∈ recs, ∃ s ∈ replaceFirst
        (fun s => keyProj st.columns cols s == keyProj st.columns cols rec)
        (fun old => applyAssignments st.columns assigns old rec) state,
        keyProj st.columns cols s = keyProj st.columns cols r := by
      intro r h
      obtain ⟨s0, hs0, hk0⟩ := hk r (List.mem_cons_of_mem _ h)
      obtain ⟨y, hy, hky⟩ := hcover s0 hs0
      exact ⟨y, hy, hky.trans hk0⟩
    rw [ih (replaceFirst
        (fun s => keyProj st.columns cols s == keyProj st.columns cols rec)
        (fun old => applyAssignments st.columns assigns old rec) state)
      hs1 hrecs hk1]
    simp

/-- C5 counterexample: with a non-empty conflict set covering every column,
the statement degenerates to ON CONFLICT DO NOTHING, so re-upserting the
identical one-row dataframe reports zero updated keys, not one: the claim
fails as stated for such dataframes. -/
theorem upsert_idempotence_counterexample :
    (["id"] : List String) ≠ [] ∧
    ([[some "1"]] : List (List Cell)).length = 1 ∧
    (classify_upsert_results (exec_upsert
      (build_upsert_statement "bronze" "t" ["id"] ["id"])
      (exec_upsert (build_upsert_statement "bronze" "t" ["id"] ["id"])
        [] [[some "1"]]).1
      [[some "1"]]).2).2.1 = 0 := by
  decide

/-- C5 (amended): for a dataframe with well-formed rows, a non-empty
conflict set, and at least one non-conflict column, upserting the
dataframe twice yields on the second call zero inserted keys and an
updated-key count equal to the row count. -/
theorem upsert_idempotence_amended (schemaName tableName : String)
    (columns conflictColumns : List String) (state records : List (List Cell))
    (hconf : conflictColumns ≠ [])
    (hupd : columns.filter (fun c => decide (c ∉ conflictColumns)) ≠ [])
    (hstate : ∀ s ∈ state, s.length = columns.length)
    (hrec : ∀ r ∈ records, r.length = columns.length) :
    (classify_upsert_results (exec_upsert
      (build_upsert_statement schemaName tableName columns conflictColumns)
      (exec_upsert
        (build_upsert_statement schemaName tableName columns conflictColumns)
        state records).1 records).2).1 = 0 ∧
    (classify_upsert_results (exec_upsert
      (build_upsert_statement schemaName tableName columns conflictColumns)
      (exec_upsert
        (build_upsert_statement schemaName tableName columns conflictColumns)
        state records).1 records).2).2.1 = records.length ∧
    (classify_upsert_results (exec_upsert
      (build_upsert_statement schemaName tableName columns conflictColumns)
      (exec_upsert
        (build_upsert_statement schemaName tableName columns conflictColumns)
        state records).1 records).2).2.2.1 = [] := by
  have hc : conflictColumns.isEmpty = false := by
    cases conflictColumns with
    | nil => exact absurd rfl hconf
    | cons a l => rfl
  have hu : (columns.filter
      (fun c => decide (c ∉ conflictColumns))).isEmpty = false := by
    simpa [List.isEmpty_iff] using hupd
  have hst : (build_upsert_statement schemaName tableName columns
      conflictColumns).conflict = .doUpdate conflictColumns
        ((columns.filter (fun c => decide (c ∉ conflictColumns))).map
          (fun c => (c, "EXCLUDED." ++ c))) := by
    simp only [build_upsert_statement, hc, hu, Bool.not_false,
      eq_self_iff_true, if_true, ite_true]
  have hass : ∀ a ∈ (columns.filter
      (fun c => decide (c ∉ conflictColumns))).map
        (fun c => (c, "EXCLUDED." ++ c)), a.1 ∉ conflictColumns := by
    intro a ha
    rw [List.mem_map] at ha
    obtain ⟨c, hcmem, hceq⟩ := ha
    have hflt := List.mem_filter.1 hcmem
    have h2 : a.1 = c := by rw [← hceq]
    rw [h2]
    simpa using hflt.2
  obtain ⟨hwf1, hcov1, hkeys1⟩ :=
    exec_upsert_doUpdate_inv _ _ _ hst hass records state hstate hrec
  have hres := exec_upsert_doUpdate_results _ _ _ hst hass records
    (exec_upsert
      (build_upsert_statement schemaName tableName columns conflictColumns)
      state records).1 hwf1 hrec hkeys1
  rw [hres]
  have hins : ((records.map (fun r => (retKey
      (build_upsert_statement schemaName tableName columns conflictColumns) r,
      false))).filter (fun r => r.2)) = [] := by
    rw [List.filter_eq_nil_iff]
    intro a ha
    rw [List.mem_map] at ha
    obtain ⟨r, _, hr⟩ := ha
    rw [← hr]
    simp
  have hupdl : ((records.map (fun r => (retKey
      (build_upsert_statement schemaName tableName columns conflictColumns) r,
      false))).filter (fun r => !r.2)) = records.map (fun r => (retKey
      (build_upsert_statement schemaName tableName columns conflictColumns) r,
      false)) := by
    rw [List.filter_eq_self]
    intro a ha
    rw [List.mem_map] at ha
    obtain ⟨r, _, hr⟩ := ha
    rw [← hr]
    simp
  refine ⟨?_, ?_, ?_⟩
  · simp [classify_upsert_results, hins]
  · simp [classify_upsert_results, hupdl]
  · simp [classify_upsert_results, hins]

/-- Witness for the amended C5 at a concrete two-column dataframe. -/
theorem upsert_idempotence_amended_witness :
    (classify_upsert_results (exec_upsert
      (build_upsert_statement "bronze" "t" ["id", "name"] ["id"])
      (exec_upsert (build_upsert_statement "bronze" "t" ["id", "name"] ["id"])
        [] [[some "1", some "a"]]).1 [[some "1", some "a"]]).2).2.1 = 1 := by
  have h := (upsert_idempotence_amended "bronze" "t" ["id", "name"] ["id"] []
    [[some "1", some "a"]] (by decide) (by decide) (by decide) (by decide)).2.1
  simpa using h

/-! ## Deduplication remediation (`db_utils._apply_unique_key_deduplication`,
lines 190-252; castaway_scores dedup, lines 1037-1058; journeys dedup,
lines 1276-1300) -/

/-- pandas `drop_duplicates(subset)` with the default keep-first policy:
`seen` accumulates the keys already encountered. -/
def dropDuplicatesGo (key : Row → List Cell) :
    List (List Cell) → List Row → List Row
  | _, [] => []
  | seen, r :: rs =>
    if key r ∈ seen then dropDuplicatesGo key seen rs
    else r :: dropDuplicatesGo key (key r :: seen) rs

/-- pandas `drop_duplicates(subset)`: keep the first occurrence of each key
in dataframe order. -/
def dropDuplicates (key : Row → List Cell) (rows : List Row) : List Row :=
  dropDuplicatesGo key [] rows

/-- pandas `duplicated(subset, keep="first")` rows: the occurrences after
the first one of each key — the rows a keep-first dedup removes. -/
def dupAfterFirstGo (key : Row → List Cell) :
    List (List Cell) → List Row → List Row
  | _, [] => []
  | seen, r :: rs =>
    if key r ∈ seen then r :: dupAfterFirstGo key seen rs
    else dupAfterFirstGo key (key r :: seen) rs

/-- The rows removed by a keep-first deduplication. -/
def dupAfterFirst (key : Row → List Cell) (rows : List Row) : List Row :=
  dupAfterFirstGo key [] rows

/-- `REMEDIATION_DETAIL_LIMIT` (db_utils.py line 56). -/
def REMEDIATION_DETAIL_LIMIT : Nat := 200

/-- The `deduplicated_rows` event payload; the three row-context fields are
`none` when the emitting call site records only counts. -/
structure DedupPayload where
  rows_removed : Nat
  subset_columns : List String
  before : Nat
  after : Nat
  original_rows : Option (List Row)
  removed_rows : Option (List Row)
  result_rows : Option (List Row)

/-- `_apply_unique_key_deduplication` (lines 190-252) after the
configuration lookup resolved the unique-column list: restrict to columns
present, drop later duplicate occurrences, and audit the removal with the
duplicate-group rows, the removed rows and the retained rows (each capped
at `REMEDIATION_DETAIL_LIMIT`). -/
def apply_unique_key_deduplication (dataset_name : String)
    (unique_cols : List String) (df : DataFrame) :
    DataFrame × Option DedupPayload :=
  let subset_cols := unique_cols.filter (fun c => decide (c ∈ df.cols))
  if subset_cols.isEmpty then (df, none)
  else
    let key := projKey subset_cols
    let dupAll := duplicatedRows subset_cols df.rows
    if dupAll.isEmpty then (df, none)
    else
      let removed := dupAfterFirst key df.rows
      let kept := (dropDuplicates key df.rows).filter
        (fun r => decide (1 < df.rows.countP (fun s => key s = key r)))
      let deduped := dropDuplicates key df.rows
      let dropped := df.rows.length - deduped.length
      if dropped = 0 then (⟨df.cols, deduped⟩, none)
      else
        (⟨df.cols, deduped⟩, some
          { rows_removed := dropped
            subset_columns := subset_cols
            before := df.rows.length
            after := deduped.length
            original_rows := some (dupAll.take REMEDIATION_DETAIL_LIMIT)
            removed_rows := some (removed.take REMEDIATION_DETAIL_LIMIT)
            result_rows := some (kept.take REMEDIATION_DETAIL_LIMIT) })

/-- The dataset-specific journeys dedup (lines 1276-1300): keep-first on
the fixed column subset, audited with counts and subset columns only. -/
def journeys_deduplication (df : DataFrame) : DataFrame × Option DedupPayload :=
  let unique_cols := (["version_season", "episode", "sog_id",
    "castaway_id"] : List String).filter (fun c => decide (c ∈ df.cols))
  if unique_cols.isEmpty then (df, none)
  else
    let deduped := dropDuplicates (projKey unique_cols) df.rows
    let dropped := df.rows.length - deduped.length
    if dropped = 0 then (⟨df.cols, deduped⟩, none)
    else
      (⟨df.cols, deduped⟩, some
        { rows_removed := dropped
          subset_columns := unique_cols
          before := df.rows.length
          after := deduped.length
          original_rows := none
          removed_rows := none
          result_rows := none })

/-- The dataset-specific castaway_scores dedup (lines 1037-1058): keep-first
on (version_season, castaway_id), audited with counts only. -/
def castaway_scores_deduplication (df : DataFrame) :
    DataFrame × Option DedupPayload :=
  let unique_cols := (["version_season", "castaway_id"] : List String).filter
    (fun c => decide (c ∈ df.cols))
  if unique_cols.isEmpty then (df, none)
  else
    let deduped := dropDuplicates (projKey unique_cols) df.rows
    let dropped := df.rows.length - deduped.length
    if dropped = 0 then (⟨df.cols, deduped⟩, none)
    else
      (⟨df.cols, deduped⟩, some
        { rows_removed := dropped
          subset_columns := unique_cols
          before := df.rows.length
          after := deduped.length
          original_rows := none
          removed_rows := none
          result_rows := none })

/-- Keep-first dedup yields a sublist of the input. -/
theorem dropDuplicatesGo_sublist (key : Row → List Cell) :
    ∀ (rows : List Row) (seen : List (List Cell)),
    (dropDuplicatesGo key seen rows).Sublist rows := by
  intro rows
  induction rows with
  | nil => intro seen; exact List.Sublist.refl []
  | cons r rs ih =>
    intro seen
    rw [dropDuplicatesGo]
    by_cases h : key r ∈ seen
    · rw [if_pos h]
      exact (ih seen).cons r
    · rw [if_neg h]
      exact (ih (key r :: seen)).cons₂ r

/-- Keep-first dedup retains pairwise distinct keys, none from `seen`. -/
theorem dropDuplicatesGo_nodup (key : Row → List Cell) :
    ∀ (rows : List Row) (seen : List (List Cell)),
    ((dropDuplicatesGo key seen rows).map key).Nodup ∧
    (∀ r ∈ dropDuplicatesGo key seen rows, key r ∉ seen) := by
  intro rows
  induction rows with
  | nil => intro seen; exact ⟨List.nodup_nil, fun r h => absurd h (List.not_mem_nil r)⟩
  | cons r rs ih =>
    intro seen
    rw [dropDuplicatesGo]
    by_cases h : key r ∈ seen
    · rw [if_pos h]
      exact ih seen
    · rw [if_neg h]
      obtain ⟨hnd, hseen⟩ := ih (key r :: seen)
      refine ⟨?_, ?_⟩
      · rw [List.map_cons, List.nodup_cons]
        refine ⟨?_, hnd⟩
        intro hmem
        rw [List.mem_map] at hmem
        obtain ⟨x, hx, hkx⟩ := hmem
        exact hseen x hx (hkx ▸ List.mem_cons_self _ _)
      · intro x hx
        rcases List.mem_cons.1 hx with heq | hx'
        · rw [heq]
          exact h
        · intro hs
          exact hseen x hx' (List.mem_cons_of_mem _ hs)

/-- Every input key survives keep-first dedup (unless already seen). -/
theorem dropDuplicatesGo_cover (key : Row → List Cell) :
    ∀ (rows : List Row) (seen : List (List Cell)),
    ∀ r ∈ rows, key r ∈ seen ∨
      ∃ r' ∈ dropDuplicatesGo key seen rows, key r' = key r := by
  intro rows
  induction rows with
  | nil => intro seen r hr; cases hr
  | cons r0 rs ih =>
    intro seen r hr
    rw [dropDuplicatesGo]
    by_cases h : key r0 ∈ seen
    · rw [if_pos h]
      rcases List.mem_cons.1 hr with heq | hr'
      · exact Or.inl (heq ▸ h)
      · exact ih seen r hr'
    · rw [if_neg h]
      rcases List.mem_cons.1 hr with heq | hr'
      · exact Or.inr ⟨r0, List.mem_cons_self _ _, (heq ▸ rfl : key r0 = key r)⟩
      · rcases ih (key r0 :: seen) r hr' with hs | ⟨r', hr'', hk⟩
        · rcases List.mem_cons.1 hs with heq | hs'
          · exact Or.inr ⟨r0, List.mem_cons_self _ _, heq.symm⟩
          · exact Or.inl hs'
        · exact Or.inr ⟨r', List.mem_cons_of_mem _ hr'', hk⟩

/-- Keep-first dedup preserves, for every key, the first matching row. -/
theorem dropDuplicatesGo_find (key : Row → List Cell) :
    ∀ (rows : List Row) (seen : List (List Cell)) (k : List Cell),
    k ∉ seen →
    (dropDuplicatesGo key seen rows).find? (fun r => key r == k) =
      rows.find? (fun r => key r == k) := by
  intro rows
  induction rows with
  | nil => intro seen k _; rfl
  | cons r rs ih =>
    intro seen k hk
    rw [dropDuplicatesGo]
    by_cases h : key r ∈ seen
    · rw [if_pos h]
      have hne : (key r == k) = false := by
        rw [beq_eq_false_iff_ne]
        intro heq
        exact hk (heq ▸ h)
      rw [List.find?_cons, hne]
      exact ih seen k hk
    · rw [if_neg h]
      by_cases heq : key r = k
      · rw [List.find?_cons, List.find?_cons,
          show (key r == k) = true from beq_iff_eq.2 heq]
      · have hne : (key r == k) = false := beq_eq_false_iff_ne.2 heq
        rw [List.find?_cons, List.find?_cons, hne]
        apply ih
        intro hmem
        rcases List.mem_cons.1 hmem with h1 | h2
        · exact heq h1.symm
        · exact hk h2

/-- C8 counterexample: a journeys dataframe with one duplicated row emits a
`deduplicated_rows` event that records counts and subset columns only —
none of the row-context fields is populated, contradicting the claim that
every dedup removal is audited with full row context. -/
theorem dedup_audit_counterexample :
    ((journeys_deduplication
      ⟨["version_season", "episode", "sog_id", "castaway_id"],
        [fun _ => some "x", fun _ => some "x"]⟩).2.map
      (fun p => (p.rows_removed, p.original_rows.isNone,
        p.removed_rows.isNone, p.result_rows.isNone))) =
      some (1, true, true, true) := by
  decide

/-- C8 (amended): every dedup call site reduces duplicates to the first
occurrence in dataframe order (the output is a sublist with pairwise
distinct, first-occurrence keys covering every input row); the configured
unique-key pass audits removals with the duplicate-group rows, the removed
rows and the retained rows; the castaway_scores and journeys dataset rules
audit their removals with before/after counts and subset columns only. -/
theorem dedup_first_occurrence_amended (name : String)
    (unique_cols : List String) (df : DataFrame) :
    (∀ (key : Row → List Cell) (rows : List Row),
      (dropDuplicates key rows).Sublist rows ∧
      ((dropDuplicates key rows).map key).Nodup ∧
      (∀ r ∈ rows, ∃ r' ∈ dropDuplicates key rows, key r' = key r) ∧
      (∀ k, (dropDuplicates key rows).find? (fun r => key r == k) =
        rows.find? (fun r => key r == k))) ∧
    (∀ p, (apply_unique_key_deduplication name unique_cols df).2 = some p →
      ((apply_unique_key_deduplication name unique_cols df).1.rows =
        dropDuplicates
          (projKey (unique_cols.filter (fun c => decide (c ∈ df.cols))))
          df.rows ∧
       p.original_rows = some ((duplicatedRows
          (unique_cols.filter (fun c => decide (c ∈ df.cols)))
          df.rows).take REMEDIATION_DETAIL_LIMIT) ∧
       p.removed_rows = some ((dupAfterFirst
          (projKey (unique_cols.filter (fun c => decide (c ∈ df.cols))))
          df.rows).take REMEDIATION_DETAIL_LIMIT) ∧
       p.result_rows ≠ none ∧
       p.rows_removed = df.rows.length -
         (apply_unique_key_deduplication name unique_cols df).1.rows.length ∧
       p.rows_removed ≠ 0)) ∧
    (∀ p, (journeys_deduplication df).2 = some p →
      (p.original_rows = none ∧ p.removed_rows = none ∧
       p.result_rows = none ∧
       p.rows_removed = df.rows.length -
         (journeys_deduplication df).1.rows.length ∧
       p.rows_removed ≠ 0)) ∧
    (∀ p, (castaway_scores_deduplication df).2 = some p →
      (p.original_rows = none ∧ p.removed_rows = none ∧
       p.result_rows = none ∧
       p.rows_removed = df.rows.length -
         (castaway_scores_deduplication df).1.rows.length ∧
       p.rows_removed ≠ 0)) := by
  refine ⟨?_, ?_, ?_, ?_⟩
  · intro key rows
    refine ⟨dropDuplicatesGo_sublist key rows [],
      (dropDuplicatesGo_nodup key rows []).1, ?_, ?_⟩
    · intro r hr
      rcases dropDuplicatesGo_cover key rows [] r hr with h | h
      · cases h
      · exact h
    · intro k
      exact dropDuplicatesGo_find key rows [] k (List.not_mem_nil k)
  · intro p hp
    simp only [apply_unique_key_deduplication] at hp
    split at hp
    next h1 => exact Option.noConfusion hp
    next h1 =>
      split at hp
      next h2 => exact Option.noConfusion hp
      next h2 =>
        split at hp
        next h3 => exact Option.noConfusion hp
        next h3 =>
          injection hp with hp'
          subst hp'
          simp only [apply_unique_key_deduplication]
          rw [if_neg h1, if_neg h2, if_neg h3]
          exact ⟨by trivial, by trivial, by trivial, by simp, by trivial, h3⟩
  · intro p hp
    simp only [journeys_deduplication] at hp
    split at hp
    next h1 => exact Option.noConfusion hp
    next h1 =>
      split at hp
      next h2 => exact Option.noConfusion hp
      next h2 =>
        injection hp with hp'
        subst hp'
        simp only [journeys_deduplication]
        rw [if_neg h1, if_neg h2]
        exact ⟨by trivial, by trivial, by trivial, by trivial, h2⟩
  · intro p hp
    simp only [castaway_scores_deduplication] at hp
    split at hp
    next h1 => exact Option.noConfusion hp
    next h1 =>
      split at hp
      next h2 => exact Option.noConfusion hp
      next h2 =>
        injection hp with hp'
        subst hp'
        simp only [castaway_scores_deduplication]
        rw [if_neg h1, if_neg h2]
        exact ⟨by trivial, by trivial, by trivial, by trivial, h2⟩

/-- Witness for the amended C8 at a concrete duplicated dataframe. -/
theorem dedup_first_occurrence_amended_witness :
    (castaway_scores_deduplication
      ⟨["version_season", "castaway_id"],
        [fun _ => some "y", fun _ => some "y"]⟩).2 =
      some ⟨1, ["version_season", "castaway_id"], 2, 1, none, none, none⟩ ∧
    (⟨1, ["version_season", "castaway_id"], 2, 1, none, none, none⟩ :
      DedupPayload).rows_removed ≠ 0 :=
  ⟨rfl, ((dedup_first_occurrence_amended "castaway_scores" []
      ⟨["version_season", "castaway_id"],
        [fun _ => some "y", fun _ => some "y"]⟩).2.2.2
    ⟨1, ["version_season", "castaway_id"], 2, 1, none, none, none⟩
    rfl).2.2.2.2⟩

/-! ## Journeys identity backfill (`db_utils._backfill_castaway_id`, lines
1119-1181, and the missing-id abort, lines 1256-1274) -/

/-- Whitespace characters stripped by Python `str.strip`. -/
def isSpaceChar (c : Char) : Bool :=
  c = ' ' || c = '\t' || c = '\n' || c = '\r'

/-- Python `str.strip`. -/
def pyStrip (s : String) : String :=
  String.mk (((s.data.dropWhile isSpaceChar).reverse.dropWhile isSpaceChar).reverse)

/-- Python truthiness of a string-or-None value (`if direct:`). -/
def pyTruthy (v : Option String) : Option String :=
  match v with
  | some s => if s.isEmpty then none else some s
  | none => none

/-- `lower_name.split()[0]` on an already stripped, non-empty name. -/
def firstToken (s : String) : String :=
  String.mk (s.data.takeWhile (fun c => !isSpaceChar c))

/-- `_normalise_name` (lines 1073-1078): `strip` abstracts the NFKD
decomposition and combining-mark removal done by the `unicodedata` standard
library; the rest lowercases and keeps `[a-z0-9]`. -/
def normaliseName (strip : String → String) (s : String) : String :=
  String.mk ((pyLower (strip s)).data.filter
    (fun c => (97 <= c.toNat && c.toNat <= 122) || (48 <= c.toNat && c.toNat <= 57)))

/-- The lookup tables built from the castaways reference snapshot (lines
1080-1114), keyed by version_season and a name form; candidate sets are
lists, absent keys yield `none`/`[]` as `dict.get`/`defaultdict` do. -/
structure JourneyLookups where
  castawayLookup : String → String → Option String
  normalisedLookup : String → String → Option String
  firstNameLookup : String → String → List String
  normalisedFirstLookup : String → String → List String
  namesByVersion : String → List (String × String)

/-- `_backfill_castaway_id` (lines 1119-1181).  `cm` abstracts
`difflib.get_close_matches` with `n=1` (Python standard library), applied
at similarity cutoff `7/10`; the five resolution steps run in order and
the first success wins. -/
def backfill_castaway_id (cm : ℚ → String → List String → Option String)
    (strip : String → String) (L : JourneyLookups)
    (version_cell name_cell : Option String) : Option String :=
  let version_season := pyStrip (version_cell.getD "")
  let name_raw := pyStrip (name_cell.getD "")
  if version_season.isEmpty || name_raw.isEmpty then none
  else
    let lower_name := pyLower name_raw
    let normalised_name := normaliseName strip name_raw
    match pyTruthy (L.castawayLookup version_season lower_name) with
    | some id => some id
    | none =>
      match pyTruthy (L.normalisedLookup version_season normalised_name) with
      | some id => some id
      | none =>
        let first_token := firstToken lower_name
        let first_token_norm := normaliseName strip first_token
        let candidates := L.firstNameLookup version_season first_token
        if candidates.length = 1 then candidates.head?
        else
          let candidates_norm :=
            L.normalisedFirstLookup version_season first_token_norm
          if candidates_norm.length = 1 then candidates_norm.head?
          else
            let version_candidates := L.namesByVersion version_season
            if !version_candidates.isEmpty then
              match cm (7/10) normalised_name (version_candidates.map Prod.fst) with
              | some matched_key =>
                (version_candidates.find? (fun p => p.1 = matched_key)).map Prod.snd
              | none => none
            else none

/-- A journeys row, restricted to the columns the backfill touches. -/
structure JourneyRow where
  castaway_id : Option String
  version_season : Option String
  castaway : Option String

/-- The journeys castaway_id column after the backfill pass (lines
1183-1186): rows that already carry an id keep it, missing ids are
resolved through `_backfill_castaway_id`. -/
def journeys_resolve (cm : ℚ → String → List String → Option String)
    (strip : String → String) (L : JourneyLookups) (rows : List JourneyRow) :
    List (Option String) :=
  rows.map (fun r =>
    match r.castaway_id with
    | some id => some id
    | none => backfill_castaway_id cm strip L r.version_season r.castaway)

/-- The journeys missing-id abort (lines 1256-1274): raise when any row
still lacks a castaway_id after the backfill. -/
def journeys_require_ids (ids : List (Option String)) :
    Except String (List (Option String)) :=
  if ids.any (fun v => v.isNone) then
    .error "journeys data still missing castaway_id after remediation"
  else .ok ids

/-- C7: the backfill applies, in order, (1) exact case-insensitive match,
(2) normalized exact match, (3) unambiguous first-token match, (4)
unambiguous normalized first-token match, (5) fuzzy similarity at cutoff
0.7 taking the single best match — returning the first step that succeeds
and `none` when all five fail; and the journeys load raises exactly when a
row still lacks a castaway_id after the backfill. -/
theorem backfill_resolution_order
    (cm : ℚ → String → List String → Option String) (strip : String → String)
    (L : JourneyLookups) (vcell ncell : Option String) (vs nr : String)
    (hcm : ∀ q s l k, cm q s l = some k → k ∈ l)
    (hvs : vs = pyStrip (vcell.getD "")) (hnr : nr = pyStrip (ncell.getD ""))
    (hvne : vs.isEmpty = false) (hnne : nr.isEmpty = false) :
    (∀ id, pyTruthy (L.castawayLookup vs (pyLower nr)) = some id →
      backfill_castaway_id cm strip L vcell ncell = some id) ∧
    (pyTruthy (L.castawayLookup vs (pyLower nr)) = none →
      ∀ id, pyTruthy (L.normalisedLookup vs (normaliseName strip nr)) = some id →
      backfill_castaway_id cm strip L vcell ncell = some id) ∧
    (pyTruthy (L.castawayLookup vs (pyLower nr)) = none →
      pyTruthy (L.normalisedLookup vs (normaliseName strip nr)) = none →
      (L.firstNameLookup vs (firstToken (pyLower nr))).length = 1 →
      backfill_castaway_id cm strip L vcell ncell =
        (L.firstNameLookup vs (firstToken (pyLower nr))).head?) ∧
    (pyTruthy (L.castawayLookup vs (pyLower nr)) = none →
      pyTruthy (L.normalisedLookup vs (normaliseName strip nr)) = none →
      (L.firstNameLookup vs (firstToken (pyLower nr))).length ≠ 1 →
      (L.normalisedFirstLookup vs
        (normaliseName strip (firstToken (pyLower nr)))).length = 1 →
      backfill_castaway_id cm strip L vcell ncell =
        (L.normalisedFirstLookup vs
          (normaliseName strip (firstToken (pyLower nr)))).head?) ∧
    (pyTruthy (L.castawayLookup vs (pyLower nr)) = none →
      pyTruthy (L.normalisedLookup vs (normaliseName strip nr)) = none →
      (L.firstNameLookup vs (firstToken (pyLower nr))).length ≠ 1 →
      (L.normalisedFirstLookup vs
        (normaliseName strip (firstToken (pyLower nr)))).length ≠ 1 →
      L.namesByVersion vs ≠ [] →
      ∀ k, cm (7/10) (normaliseName strip nr)
          ((L.namesByVersion vs).map Prod.fst) = some k →
      (backfill_castaway_id cm strip L vcell ncell =
        ((L.namesByVersion vs).find? (fun p => p.1 = k)).map Prod.snd ∧
       ∃ id, backfill_castaway_id cm strip L vcell ncell = some id)) ∧
    (pyTruthy (L.castawayLookup vs (pyLower nr)) = none →
      pyTruthy (L.normalisedLookup vs (normaliseName strip nr)) = none →
      (L.firstNameLookup vs (firstToken (pyLower nr))).length ≠ 1 →
      (L.normalisedFirstLookup vs
        (normaliseName strip (firstToken (pyLower nr)))).length ≠ 1 →
      (L.namesByVersion vs = [] ∨
        cm (7/10) (normaliseName strip nr)
          ((L.namesByVersion vs).map Prod.fst) = none) →
      backfill_castaway_id cm strip L vcell ncell = none) ∧
    (∀ v n, ((pyStrip (v.getD "")).isEmpty = true ∨
        (pyStrip (n.getD "")).isEmpty = true) →
      backfill_castaway_id cm strip L v n = none) ∧
    (∀ rows : List JourneyRow,
      ((∃ e, journeys_require_ids (journeys_resolve cm strip L rows) =
          .error e) ↔
        ∃ v ∈ journeys_resolve cm strip L rows, v = none)) := by
  subst hvs
  subst hnr
  refine ⟨?_, ?_, ?_, ?_, ?_, ?_, ?_, ?_⟩
  · intro id h1
    simp [backfill_castaway_id, hvne, hnne, h1]
  · intro h1 id h2
    simp [backfill_castaway_id, hvne, hnne, h1, h2]
  · intro h1 h2 h3
    simp [backfill_castaway_id, hvne, hnne, h1, h2, h3]
  · intro h1 h2 h3 h4
    simp [backfill_castaway_id, hvne, hnne, h1, h2, h3, h4]
  · intro h1 h2 h3 h4 h5 k hk
    have h5' : ((L.namesByVersion
        (pyStrip (vcell.getD ""))).isEmpty) = false := by
      simpa [List.isEmpty_iff] using h5
    constructor
    · simp [backfill_castaway_id, hvne, hnne, h1, h2, h3, h4, h5', hk]
    · have hmem := hcm _ _ _ _ hk
      rw [List.mem_map] at hmem
      obtain ⟨p, hp, hpk⟩ := hmem
      have hfind : ∃ q, (L.namesByVersion
          (pyStrip (vcell.getD ""))).find? (fun p => p.1 = k) = some q := by
        rw [← Option.isSome_iff_exists, List.find?_isSome]
        exact ⟨p, hp, by simpa using hpk⟩
      obtain ⟨q, hq⟩ := hfind
      refine ⟨q.2, ?_⟩
      simp [backfill_castaway_id, hvne, hnne, h1, h2, h3, h4, h5', hk, hq]
  · intro h1 h2 h3 h4 h5
    rcases h5 with h5 | h5
    · simp [backfill_castaway_id, hvne, hnne, h1, h2, h3, h4, h5]
    · by_cases hv : L.namesByVersion (pyStrip (vcell.getD "")) = []
      · simp [backfill_castaway_id, hvne, hnne, h1, h2, h3, h4, hv]
      · have hv' : ((L.namesByVersion
            (pyStrip (vcell.getD ""))).isEmpty) = false := by
          simpa [List.isEmpty_iff] using hv
        simp [backfill_castaway_id, hvne, hnne, h1, h2, h3, h4, hv', h5]
  · intro v n hempty
    rcases hempty with h | h
    · simp [backfill_castaway_id, h]
    · simp [backfill_castaway_id, h]
  · intro rows
    rw [journeys_require_ids]
    by_cases hany : (journeys_resolve cm strip L rows).any
        (fun v => v.isNone) = true
    · rw [if_pos hany]
      constructor
      · intro _
        obtain ⟨v, hv, hvn⟩ := List.any_eq_true.1 hany
        exact ⟨v, hv, by simpa using hvn⟩
      · intro _
        exact ⟨"journeys data still missing castaway_id after remediation", rfl⟩
    · rw [if_neg hany]
      constructor
      · rintro ⟨e, he⟩
        exact Except.noConfusion he
      · rintro ⟨v, hv, hvn⟩
        exact absurd (List.any_eq_true.2 ⟨v, hv, by simp [hvn]⟩) hany

/-- Witness for C7: a direct case-insensitive match resolves the id. -/
theorem backfill_resolution_order_witness :
    backfill_castaway_id (fun _ _ _ => none) id
      ⟨fun v n => if v = "US01" && n = "jane doe" then some "C1" else none,
       fun _ _ => none, fun _ _ => [], fun _ _ => [], fun _ => []⟩
      (some "US01") (some "Jane Doe") = some "C1" :=
  (backfill_resolution_order (fun _ _ _ => none) id
      ⟨fun v n => if v = "US01" && n = "jane doe" then some "C1" else none,
       fun _ _ => none, fun _ _ => [], fun _ _ => [], fun _ => []⟩
      (some "US01") (some "Jane Doe") "US01" "Jane Doe"
      (fun _ _ _ _ h => Option.noConfusion h)
      (by decide) (by decide) (by decide) (by decide)).1 "C1" (by decide)

/-! ## advantage_movement holder explosion
(`db_utils._apply_dataset_specific_rules`, lines 1310-1475: `_split_list`,
`_align_list_lengths`, `_stringify_ids`, `_compute_co_list` and the
multi-holder explode).  Strings are embedded at character level so that the
split/trim/join algebra is provable. -/

/-- Character-level string, for the comma-splitting remediation code. -/
abbrev Str := List Char

/-- Python `text.split(",")`. -/
def splitCommaChars : Str → List Str
  | [] => [[]]
  | c :: rest =>
    if c = ',' then [] :: splitCommaChars rest
    else
      match splitCommaChars rest with
      | [] => [[c]]
      | p :: ps => (c :: p) :: ps

/-- Python `str.strip` on character lists. -/
def trimChars (l : Str) : Str :=
  ((l.dropWhile isSpaceChar).reverse.dropWhile isSpaceChar).reverse

/-- Python `str.lower` on character lists. -/
def lowerChars (l : Str) : Str := l.map lowerChar

/-- Python `", ".join`. -/
def joinCommaSpace : List Str → Str
  | [] => []
  | [t] => t
  | t :: ts => t ++ (',' :: ' ' :: joinCommaSpace ts)

/-- `_split_list` (lines 1324-1332): null-likes collapse to `[None]`,
otherwise split on comma, trim tokens, drop empties. -/
def splitList (v : Option Str) : List (Option Str) :=
  match v with
  | none => [none]
  | some s =>
    let text := trimChars s
    if text = [] ∨ lowerChars text ∈ [("nan".data), ("none".data)] then [none]
    else
      let cleaned := ((splitCommaChars text).map trimChars).filter (fun p => p ≠ [])
      if cleaned = [] then [none] else cleaned.map some

/-- `_align_list_lengths` (lines 1334-1350): pad the paired list with its
final element (or truncate it) to the base list's length. -/
def alignListLengths (base : List (Option Str)) (other : List (Option Str)) :
    List (Option Str) :=
  let fill := other.getLastD none
  let aligned :=
    if other.length < base.length then
      other ++ List.replicate (base.length - other.length) fill
    else other.take base.length
  if aligned = [] then List.replicate base.length none else aligned

/-- The inner accumulation of `_stringify_ids` (lines 1365-1371): trim each
comma-separated part, keep non-empty parts not yet collected. -/
def addTokensStep (a : List Str) (part : Str) : List Str :=
  let c := trimChars part
  if c ≠ [] ∧ c ∉ a then a ++ [c] else a

/-- Token collection of `_stringify_ids` over one entry. -/
def addTokens (acc : List Str) (entry : Str) : List Str :=
  (splitCommaChars entry).foldl addTokensStep acc

/-- `_stringify_ids` (lines 1352-1372) on a list of string entries: collect
the deduplicated trimmed tokens in order and join them with ", ". -/
def stringifyCore (entries : List Str) : Option Str :=
  let ordered := entries.foldl addTokens []
  if ordered = [] then none else some (joinCommaSpace ordered)

/-- `_stringify_ids` applied to a single optional string cell, as in
`df["co_castaway_ids"].apply(_stringify_ids)` (line 1475). -/
def stringifyIdsOpt (v : Option Str) : Option Str :=
  match v with
  | none => none
  | some s => stringifyCore [s]

/-- `_compute_co_list` (lines 1379-1392): each truthy holder gets the other
truthy holders, stringified; falsy holders get `None`. -/
def computeCoList (values : List (Option Str)) : List (Option Str) :=
  let cleaned := values.filterMap (fun v =>
    match v with
    | some s => if s = [] then none else some s
    | none => none)
  if cleaned = [] then values.map (fun _ => none)
  else values.map (fun v =>
    match v with
    | some s =>
      if s ≠ [] then stringifyCore (cleaned.filter (fun o => o ≠ s)) else none
    | none => none)

/-- `_clean_castaway_id` (lines 750-756) on character lists. -/
def cleanCastawayIdChars (v : Option Str) : Option Str :=
  match v with
  | none => none
  | some x =>
    let text := trimChars x
    if text = [] ∨
        lowerChars text ∈ [("none".data), ("null".data), ("nan".data)] then none
    else some text

/-- Python truthiness of an optional token (`[val for val in values if val]`). -/
def truthyStr (v : Option Str) : Bool :=
  match v with
  | some s => !s.isEmpty
  | none => false

/-- One exploded advantage_movement row, restricted to the columns the
explosion writes. -/
structure AdvOut where
  castaway_id : Option Str
  castaway : Option Str
  co_castaway_ids : Option Str
  joint_play : Bool
deriving DecidableEq, Repr

/-- The explosion of one advantage_movement row along the branch where the
`castaway` display-name column is present (lines 1394-1475, explode at
1466-1468): split the holder field, align names, compute co-holder lists,
mark joint plays, explode to one row per token, then clean the id and
re-stringify the co column. -/
def explodeAdvRowNamed (joint0 : Bool) (holder nameVal : Option Str) :
    List AdvOut :=
  let hs := splitList holder
  let ns := alignListLengths hs (splitList nameVal)
  let cs := computeCoList hs
  let joint := joint0 || decide (1 < (hs.filter truthyStr).length)
  (hs.zip (ns.zip cs)).map (fun t =>
    { castaway_id := cleanCastawayIdChars t.1
      castaway := t.2.1
      co_castaway_ids := stringifyIdsOpt t.2.2
      joint_play := joint })

/-- C6 counterexample: a holder field of "A, A" has two comma-separated
tokens, but the exploded rows carry the same holder value and an empty
co-identity field (not the other token); and in "A, null" the null-like
token is cleaned to a missing id, so the rows do not each carry one
distinct holder value.  The claim fails as stated for repeated or
null-like tokens. -/
theorem advantage_explosion_counterexample :
    (splitList (some ("A, A".data))).length = 2 ∧
    ((explodeAdvRowNamed false (some ("A, A".data)) none).map
      (fun o => (o.castaway_id, o.co_castaway_ids, o.joint_play))) =
      [(some ("A".data), none, true), (some ("A".data), none, true)] ∧
    ((explodeAdvRowNamed false (some ("A, null".data)) none).map
      (fun o => o.castaway_id)) = [some ("A".data), none] := by
  decide

/-- Splitting never yields an empty part list. -/
theorem splitCommaChars_ne_nil : ∀ s : Str, splitCommaChars s ≠ [] := by
  intro s
  induction s with
  | nil => simp [splitCommaChars]
  | cons c rest ih =>
    rw [splitCommaChars]
    by_cases hc : c = ','
    · simp [hc]
    · rw [if_neg hc]
      cases h : splitCommaChars rest with
      | nil => simp
      | cons p ps => simp

/-- No part of a comma split contains a comma. -/
theorem splitCommaChars_no_comma :
    ∀ (s : Str) (p : Str), p ∈ splitCommaChars s → ',' ∉ p := by
  intro s
  induction s with
  | nil =>
    intro p hp
    rw [splitCommaChars] at hp
    rw [List.mem_singleton.1 hp]
    exact List.not_mem_nil ','
  | cons c rest ih =>
    intro p hp
    rw [splitCommaChars] at hp
    by_cases hc : c = ','
    · rw [if_pos hc] at hp
      rcases List.mem_cons.1 hp with heq | hp'
      · rw [heq]
        exact List.not_mem_nil ','
      · exact ih p hp'
    · rw [if_neg hc] at hp
      cases h : splitCommaChars rest with
      | nil => exact absurd h (splitCommaChars_ne_nil rest)
      | cons q qs =>
        rw [h] at hp
        rcases List.mem_cons.1 hp with heq | hp'
        · rw [heq]
          intro hmem
          rcases List.mem_cons.1 hmem with h1 | h1
          · exact hc h1.symm
          · exact ih q (h ▸ List.mem_cons_self q qs) h1
        · exact ih p (h ▸ List.mem_cons_of_mem q hp')

/-- A comma-free string splits into itself. -/
theorem splitCommaChars_of_no_comma :
    ∀ t : Str, ',' ∉ t → splitCommaChars t = [t] := by
  intro t
  induction t with
  | nil => intro _; rfl
  | cons c rest ih =>
    intro h
    have hc : ¬ c = ',' := fun he => h (he ▸ List.mem_cons_self c rest)
    have hrest : ',' ∉ rest := fun hm => h (List.mem_cons_of_mem c hm)
    rw [splitCommaChars, if_neg hc, ih hrest]

/-- Splitting around an explicit comma. -/
theorem splitCommaChars_append_comma :
    ∀ (a b : Str), ',' ∉ a →
    splitCommaChars (a ++ ',' :: b) = a :: splitCommaChars b := by
  intro a
  induction a with
  | nil =>
    intro b _
    simp [splitCommaChars]
  | cons c rest ih =>
    intro b h
    have hc : ¬ c = ',' := fun he => h (he ▸ List.mem_cons_self c rest)
    have hrest : ',' ∉ rest := fun hm => h (List.mem_cons_of_mem c hm)
    rw [List.cons_append, splitCommaChars, if_neg hc, ih b hrest]

/-- Dropping a prefix satisfying `p` is idempotent. -/
theorem dropWhile_dropWhile (p : Char → Bool) :
    ∀ l : Str, (l.dropWhile p).dropWhile p = l.dropWhile p := by
  intro l
  induction l with
  | nil => rfl
  | cons c rest ih =>
    rw [List.dropWhile_cons]
    by_cases hc : p c = true
    · rw [if_pos hc]
      exact ih
    · rw [if_neg hc, List.dropWhile_cons, if_neg hc]

/-- A prefix of a list with no droppable head has no droppable head. -/
theorem dropWhile_eq_self_of_prefix (p : Char → Bool) :
    ∀ (l₁ l₂ : Str), l₁.dropWhile p = l₁ → l₂ <+: l₁ → l₂.dropWhile p = l₂ := by
  intro l₁ l₂ h1 h2
  cases l₂ with
  | nil => rfl
  | cons c t =>
    obtain ⟨rest, hrest⟩ := h2
    rw [List.dropWhile_cons]
    by_cases hc : p c = true
    · exfalso
      rw [← hrest, List.cons_append, List.dropWhile_cons, if_pos hc] at h1
      have hlen := congrArg List.length h1
      have hle := (List.dropWhile_sublist (l := t ++ rest) (p := p)).length_le
      simp at hlen hle
      omega
    · rw [if_neg hc]

/-- The right-trimmed list is a prefix of the original. -/
theorem reverse_dropWhile_reverse_prefix (p : Char → Bool) (l : Str) :
    (((l.reverse.dropWhile p).reverse) : Str) <+: l := by
  obtain ⟨t, ht⟩ := List.dropWhile_suffix p (l := l.reverse)
  refine ⟨t.reverse, ?_⟩
  have := congrArg List.reverse ht
  simpa using this

/-- `str.strip` is idempotent. -/
theorem trimChars_idem (l : Str) : trimChars (trimChars l) = trimChars l := by
  have hnl : (trimChars l).dropWhile isSpaceChar = trimChars l := by
    apply dropWhile_eq_self_of_prefix isSpaceChar (l.dropWhile isSpaceChar)
    · exact dropWhile_dropWhile isSpaceChar l
    · exact reverse_dropWhile_reverse_prefix isSpaceChar (l.dropWhile isSpaceChar)
  show ((((trimChars l).dropWhile isSpaceChar).reverse.dropWhile
    isSpaceChar).reverse) = trimChars l
  rw [hnl]
  show ((((((l.dropWhile isSpaceChar).reverse.dropWhile
    isSpaceChar).reverse).reverse).dropWhile isSpaceChar).reverse) = trimChars l
  rw [List.reverse_reverse, dropWhile_dropWhile]
  rfl

/-- Trimming only removes characters. -/
theorem trimChars_mem_subset {x : Char} {l : Str} (h : x ∈ trimChars l) :
    x ∈ l := by
  rw [trimChars, List.mem_reverse] at h
  have h2 := (List.dropWhile_sublist (l := (l.dropWhile isSpaceChar).reverse)
    (p := isSpaceChar)).mem h
  rw [List.mem_reverse] at h2
  exact (List.dropWhile_sublist (l := l) (p := isSpaceChar)).mem h2

/-- Stripping swallows a leading blank. -/
theorem trimChars_cons_space (l : Str) : trimChars (' ' :: l) = trimChars l := by
  rw [trimChars, trimChars, List.dropWhile_cons, if_pos (by decide)]

/-- A token produced by `_split_list`: non-empty, comma-free, trimmed. -/
def canonicalTok (t : Str) : Prop := t ≠ [] ∧ ',' ∉ t ∧ trimChars t = t

/-- Every string token of `_split_list` is canonical. -/
theorem splitList_canonical (v : Option Str) (t : Str)
    (h : some t ∈ splitList v) : canonicalTok t := by
  cases v with
  | none => simp [splitList] at h
  | some s =>
    simp only [splitList] at h
    split at h
    · simp at h
    · split at h
      · simp at h
      · rw [List.mem_map] at h
        obtain ⟨t', ht', heq⟩ := h
        have hteq : t' = t := by injection heq
        subst hteq
        obtain ⟨htm, htne⟩ := List.mem_filter.1 ht'
        rw [List.mem_map] at htm
        obtain ⟨p, hp, hpt⟩ := htm
        have hne : t' ≠ [] := by simpa using htne
        refine ⟨hne, ?_, ?_⟩
        · intro hcm
          exact splitCommaChars_no_comma _ p hp
            (trimChars_mem_subset (hpt ▸ hcm))
        · rw [← hpt, trimChars_idem]

/-- `_split_list` always yields at least one entry. -/
theorem splitList_ne_nil (v : Option Str) : splitList v ≠ [] := by
  cases v with
  | none => simp [splitList]
  | some s =>
    simp only [splitList]
    split
    · simp
    · split
      next h => simp
      next h => simpa using h

/-- A canonical token is appended by the stringify accumulation unless
already present. -/
theorem addTokensStep_canonical (a : List Str) (t : Str) (h : canonicalTok t) :
    addTokensStep a t = if t ∈ a then a else a ++ [t] := by
  obtain ⟨h1, h2, h3⟩ := h
  simp only [addTokensStep, h3]
  by_cases hm : t ∈ a
  · rw [if_pos hm, if_neg (fun hc => hc.2 hm)]
  · rw [if_neg hm, if_pos ⟨h1, hm⟩]

/-- `_stringify_ids` accumulation of one canonical entry. -/
theorem addTokens_canonical (acc : List Str) (t : Str) (h : canonicalTok t) :
    addTokens acc t = if t ∈ acc then acc else acc ++ [t] := by
  rw [addTokens, splitCommaChars_of_no_comma t h.2.1, List.foldl_cons,
    List.foldl_nil]
  exact addTokensStep_canonical acc t h

/-- Folding canonical, duplicate-free, fresh entries appends them all. -/
theorem foldl_addTokens (tokens : List Str) :
    ∀ acc, (∀ t ∈ tokens, canonicalTok t) → tokens.Nodup →
    (∀ t ∈ tokens, t ∉ acc) → tokens.foldl addTokens acc = acc ++ tokens := by
  induction tokens with
  | nil => intro acc _ _ _; simp
  | cons t ts ih =>
    intro acc hcan hnd hdisj
    rw [List.foldl_cons, addTokens_canonical acc t (hcan t (List.mem_cons_self _ _)),
      if_neg (hdisj t (List.mem_cons_self _ _))]
    rw [ih (acc ++ [t]) (fun x hx => hcan x (List.mem_cons_of_mem _ hx))
      (List.nodup_cons.1 hnd).2 ?_]
    · simp
    · intro x hx hmem
      rcases List.mem_append.1 hmem with hm | hm
      · exact hdisj x (List.mem_cons_of_mem _ hx) hm
      · exact (List.nodup_cons.1 hnd).1 (List.mem_singleton.1 hm ▸ hx)

/-- `_stringify_ids` of a canonical, duplicate-free token list joins it. -/
theorem stringifyCore_canonical (tokens : List Str)
    (hcan : ∀ t ∈ tokens, canonicalTok t) (hnd : tokens.Nodup)
    (hne : tokens ≠ []) :
    stringifyCore tokens = some (joinCommaSpace tokens) := by
  simp only [stringifyCore]
  rw [foldl_addTokens tokens [] hcan hnd (by simp), List.nil_append]
  rw [if_neg hne]

/-- Splitting a ", "-join recovers the tokens, each but the first carrying
the pad blank. -/
theorem splitComma_join : ∀ (t : Str) (ts : List Str), ',' ∉ t →
    (∀ x ∈ ts, ',' ∉ x) →
    splitCommaChars (joinCommaSpace (t :: ts)) =
      t :: ts.map (fun x => ' ' :: x) := by
  intro t ts
  induction ts generalizing t with
  | nil =>
    intro h _
    rw [show joinCommaSpace [t] = t from rfl, splitCommaChars_of_no_comma t h]
    rfl
  | cons t' ts' ih =>
    intro h h2
    rw [show joinCommaSpace (t :: t' :: ts') =
      t ++ ',' :: ' ' :: joinCommaSpace (t' :: ts') from rfl]
    rw [splitCommaChars_append_comma _ _ h]
    have hin : splitCommaChars (' ' :: joinCommaSpace (t' :: ts')) =
        (' ' :: t') :: ts'.map (fun x => ' ' :: x) := by
      rw [splitCommaChars, if_neg (by decide),
        ih t' (h2 t' (List.mem_cons_self _ _))
          (fun x hx => h2 x (List.mem_cons_of_mem _ hx))]
    rw [hin]
    rfl

/-- Spaced canonical parts accumulate like the bare tokens. -/
theorem foldl_addTokensStep_spaced (parts : List Str) :
    ∀ acc, (∀ t ∈ parts, canonicalTok t) → parts.Nodup →
    (∀ t ∈ parts, t ∉ acc) →
    (parts.map (fun t => ' ' :: t)).foldl addTokensStep acc = acc ++ parts := by
  induction parts with
  | nil => intro acc _ _ _; simp
  | cons t ts ih =>
    intro acc hcan hnd hdisj
    rw [List.map_cons, List.foldl_cons]
    have hstep : addTokensStep acc (' ' :: t) = acc ++ [t] := by
      obtain ⟨h1, h2, h3⟩ := hcan t (List.mem_cons_self _ _)
      simp only [addTokensStep, trimChars_cons_space, h3]
      rw [if_pos ⟨h1, hdisj t (List.mem_cons_self _ _)⟩]
    rw [hstep, ih (acc ++ [t]) (fun x hx => hcan x (List.mem_cons_of_mem _ hx))
      (List.nodup_cons.1 hnd).2 ?_]
    · simp
    · intro x hx hmem
      rcases List.mem_append.1 hmem with hm | hm
      · exact hdisj x (List.mem_cons_of_mem _ hx) hm
      · exact (List.nodup_cons.1 hnd).1 (List.mem_singleton.1 hm ▸ hx)

/-- Re-collecting the tokens of a join recovers exactly the tokens. -/
theorem addTokens_join (l : List Str) (hcan : ∀ t ∈ l, canonicalTok t)
    (hnd : l.Nodup) (hne : l ≠ []) :
    addTokens [] (joinCommaSpace l) = l := by
  cases l with
  | nil => exact absurd rfl hne
  | cons t ts =>
    rw [addTokens, splitComma_join t ts (hcan t (List.mem_cons_self _ _)).2.1
      (fun x hx => (hcan x (List.mem_cons_of_mem _ hx)).2.1), List.foldl_cons]
    have hstep : addTokensStep [] t = [t] := by
      rw [addTokensStep_canonical [] t (hcan t (List.mem_cons_self _ _))]
      simp
    rw [hstep]
    rw [foldl_addTokensStep_spaced ts [t]
      (fun x hx => hcan x (List.mem_cons_of_mem _ hx))
      (List.nodup_cons.1 hnd).2 ?_]
    · rfl
    · intro x hx hmem
      exact (List.nodup_cons.1 hnd).1 (List.mem_singleton.1 hmem ▸ hx)

/-- The post-explode `apply(_stringify_ids)` pass leaves a joined canonical
token list unchanged. -/
theorem stringify_join_roundtrip (l : List Str)
    (hcan : ∀ t ∈ l, canonicalTok t) (hnd : l.Nodup) (hne : l ≠ []) :
    stringifyIdsOpt (some (joinCommaSpace l)) = some (joinCommaSpace l) := by
  rw [stringifyIdsOpt]
  simp only [stringifyCore, List.foldl_cons, List.foldl_nil]
  rw [addTokens_join l hcan hnd hne, if_neg hne]

/-- Non-empty strings pass the truthiness filter of `_compute_co_list`. -/
theorem filterMap_if_ne_nil : ∀ l : List Str, (∀ t ∈ l, t ≠ []) →
    l.filterMap (fun s => if s = [] then none else some s) = l := by
  intro l
  induction l with
  | nil => intro _; rfl
  | cons t ts ih =>
    intro h
    rw [List.filterMap_cons]
    rw [if_neg (h t (List.mem_cons_self _ _))]
    rw [ih (fun x hx => h x (List.mem_cons_of_mem _ hx))]

/-- `_compute_co_list` over an all-truthy token list: every entry gets the
other tokens stringified. -/
theorem computeCoList_map_some (tokens : List Str)
    (hne : ∀ t ∈ tokens, t ≠ []) (htokne : tokens ≠ []) :
    computeCoList (tokens.map some) =
      tokens.map (fun t => stringifyCore (tokens.filter (fun o => o ≠ t))) := by
  simp only [computeCoList]
  rw [List.filterMap_map]
  have hcleaned : tokens.filterMap ((fun v => match v with
      | some s => if s = [] then none else some s
      | none => none) ∘ some) = tokens := by
    have : ((fun (v : Option Str) => match v with
        | some s => if s = [] then none else some s
        | none => none) ∘ some) =
        (fun s => if s = [] then none else some s) := rfl
    rw [this]
    exact filterMap_if_ne_nil tokens hne
  rw [hcleaned, if_neg htokne, List.map_map]
  apply List.map_congr_left
  intro t ht
  simp only [Function.comp]
  rw [if_pos (hne t ht)]

/-- `_compute_co_list` preserves length. -/
theorem computeCoList_length (values : List (Option Str)) :
    (computeCoList values).length = values.length := by
  simp only [computeCoList]
  split <;> simp

/-- With pairwise distinct tokens, "the other tokens" is the list with the
`i`-th entry removed, order preserved. -/
theorem nodup_filter_ne_eraseIdx :
    ∀ (l : List Str) (i : Nat) (h : i < l.length), l.Nodup →
    l.filter (fun x => x ≠ l.get ⟨i, h⟩) = l.eraseIdx i := by
  intro l
  induction l with
  | nil => intro i h; simp at h
  | cons a rest ih =>
    intro i h hnd
    cases i with
    | zero =>
      simp only [List.get, List.eraseIdx]
      rw [List.filter_cons]
      rw [if_neg (by simp)]
      rw [List.filter_eq_self.2 ?_]
      intro x hx
      simp only [decide_eq_true_eq]
      intro heq
      exact (List.nodup_cons.1 hnd).1 (heq ▸ hx)
    | succ n =>
      have hn : n < rest.length := by simpa using h
      simp only [List.get, List.eraseIdx]
      rw [List.filter_cons]
      rw [if_pos ?_, ih n hn (List.nodup_cons.1 hnd).2]
      simp only [decide_eq_true_eq]
      intro heq
      exact (List.nodup_cons.1 hnd).1 (heq ▸ List.get_mem rest n hn)

/-- `_align_list_lengths` matches the base length. -/
theorem alignListLengths_length (base other : List (Option Str)) :
    (alignListLengths base other).length = base.length := by
  simp only [alignListLengths]
  by_cases hlt : other.length < base.length
  · rw [if_pos hlt]
    split <;> (simp; try omega)
  · rw [if_neg hlt]
    split <;> (simp; try omega)

/-- `_align_list_lengths` pairs by position, padding with the final entry. -/
theorem alignListLengths_get (base other : List (Option Str)) (i : Nat)
    (h : i < base.length) :
    (alignListLengths base other)[i]? =
      (if i < other.length then other[i]? else some (other.getLastD none)) := by
  simp only [alignListLengths]
  by_cases hlt : other.length < base.length
  · rw [if_pos hlt]
    have hne : other ++ List.replicate (base.length - other.length)
        (other.getLastD none) ≠ [] := by
      intro hnil
      have hlen2 : (other ++ List.replicate (base.length - other.length)
          (other.getLastD none)).length = 0 := by
        rw [hnil]
        rfl
      rw [List.length_append, List.length_replicate] at hlen2
      omega
    rw [if_neg hne]
    by_cases hio : i < other.length
    · rw [if_pos hio, List.getElem?_append_left hio]
    · rw [if_neg hio, List.getElem?_append_right (le_of_not_lt hio),
        List.getElem?_replicate, if_pos (by omega)]
  · rw [if_neg hlt]
    have hio : i < other.length := lt_of_lt_of_le h (le_of_not_lt hlt)
    have hne : other.take base.length ≠ [] := by
      intro hnil
      have hlen2 : (other.take base.length).length = 0 := by
        rw [hnil]
        rfl
      rw [List.length_take] at hlen2
      rw [Nat.min_eq_left (le_of_not_lt hlt)] at hlen2
      omega
    rw [if_neg hne, if_pos hio, List.getElem?_take, if_pos h]

/-- A canonical, non-null-like token passes `_clean_castaway_id` intact. -/
theorem cleanCastawayIdChars_canonical (t : Str) (hc : canonicalTok t)
    (hn : lowerChars t ∉ [("none".data), ("null".data), ("nan".data)]) :
    cleanCastawayIdChars (some t) = some t := by
  simp only [cleanCastawayIdChars, hc.2.2]
  rw [if_neg ?_]
  rintro (h | h)
  · exact hc.1 h
  · exact hn h

/-- C6 (amended): when the holder field splits into N > 1 pairwise
distinct, non-null-like tokens, the explosion yields exactly N rows; the
rows' holder ids are exactly the tokens in order (hence pairwise
distinct); every row is flagged joint; each row's co-identities field is
the other N−1 tokens joined in original relative order; and the display
name is paired by position, padding with the final name when the name list
is shorter. -/
theorem advantage_explosion_amended (joint0 : Bool)
    (holder nameVal : Option Str) (tokens : List Str) (N : Nat)
    (hsplit : splitList holder = tokens.map some)
    (hN : tokens.length = N) (hN2 : 1 < N) (hnodup : tokens.Nodup)
    (hnotnull : ∀ t ∈ tokens,
      lowerChars t ∉ [("none".data), ("null".data), ("nan".data)]) :
    (explodeAdvRowNamed joint0 holder nameVal).length = N ∧
    ((explodeAdvRowNamed joint0 holder nameVal).map AdvOut.castaway_id =
      tokens.map some) ∧
    (∀ o ∈ explodeAdvRowNamed joint0 holder nameVal, o.joint_play = true) ∧
    (∀ i, ∀ h : i < N,
      ∃ o, (explodeAdvRowNamed joint0 holder nameVal)[i]? = some o ∧
      o.castaway_id = some (tokens.get ⟨i, hN ▸ h⟩) ∧
      o.co_castaway_ids = some (joinCommaSpace (tokens.eraseIdx i)) ∧
      (tokens.eraseIdx i).length = N - 1 ∧
      o.castaway = (if i < (splitList nameVal).length
        then (splitList nameVal).getD i none
        else (splitList nameVal).getLastD none)) := by
  have hcanon : ∀ t ∈ tokens, canonicalTok t := by
    intro t ht
    apply splitList_canonical holder
    rw [hsplit, List.mem_map]
    exact ⟨t, ht, rfl⟩
  have htne : ∀ t ∈ tokens, t ≠ [] := fun t ht => (hcanon t ht).1
  have htokne : tokens ≠ [] := by
    intro hcontr
    rw [hcontr] at hN
    simp at hN
    omega
  have hlenhs : (splitList holder).length = N := by
    rw [hsplit, List.length_map, hN]
  have hcs : computeCoList (splitList holder) =
      tokens.map (fun t => stringifyCore (tokens.filter (fun o => o ≠ t))) := by
    rw [hsplit]
    exact computeCoList_map_some tokens htne htokne
  have hlencs : (computeCoList (splitList holder)).length = N := by
    rw [hcs, List.length_map, hN]
  have hlenns : (alignListLengths (splitList holder)
      (splitList nameVal)).length = N := by
    rw [alignListLengths_length, hlenhs]
  have hjoint : (joint0 ||
      decide (1 < ((splitList holder).filter truthyStr).length)) = true := by
    have hfilter : (splitList holder).filter truthyStr = splitList holder := by
      rw [List.filter_eq_self]
      intro v hv
      rw [hsplit, List.mem_map] at hv
      obtain ⟨t, ht, heq⟩ := hv
      rw [← heq]
      have := htne t ht
      cases t with
      | nil => exact absurd rfl this
      | cons a b => rfl
    rw [hfilter, hlenhs]
    simp [hN2]
  have hzlen : ((splitList holder).zip
      ((alignListLengths (splitList holder) (splitList nameVal)).zip
        (computeCoList (splitList holder)))).length = N := by
    rw [List.length_zip, List.length_zip, hlenhs, hlenns, hlencs]
    omega
  simp only [explodeAdvRowNamed]
  refine ⟨?_, ?_, ?_, ?_⟩
  · rw [List.length_map, hzlen]
  · rw [List.map_map]
    have hcomp : (AdvOut.castaway_id ∘ (fun t :
        Option Str × (Option Str × Option Str) =>
        ({ castaway_id := cleanCastawayIdChars t.1
           castaway := t.2.1
           co_castaway_ids := stringifyIdsOpt t.2.2
           joint_play := joint0 ||
             decide (1 < ((splitList holder).filter truthyStr).length) } :
          AdvOut))) = (fun t => cleanCastawayIdChars t.1) := rfl
    rw [hcomp]
    have hsplitmap : ((splitList holder).zip
        ((alignListLengths (splitList holder) (splitList nameVal)).zip
          (computeCoList (splitList holder)))).map
        (fun t => cleanCastawayIdChars t.1) =
        (((splitList holder).zip
          ((alignListLengths (splitList holder) (splitList nameVal)).zip
            (computeCoList (splitList holder)))).map Prod.fst).map
          cleanCastawayIdChars := by
      rw [List.map_map]
      rfl
    rw [hsplitmap, List.map_fst_zip _ _ ?_]
    · rw [hsplit, List.map_map]
      apply List.map_congr_left
      intro t ht
      exact cleanCastawayIdChars_canonical t (hcanon t ht) (hnotnull t ht)
    · rw [List.length_zip, hlenhs, hlenns, hlencs]
      omega
  · intro o ho
    rw [List.mem_map] at ho
    obtain ⟨t, ht, heq⟩ := ho
    rw [← heq]
    exact hjoint
  · intro i h
    have hi : i < tokens.length := by omega
    have hhsi : (splitList holder)[i]? = some (some (tokens.get ⟨i, hN ▸ h⟩)) := by
      rw [hsplit, List.getElem?_map, List.getElem?_eq_getElem hi]
      rfl
    have hcsi : (computeCoList (splitList holder))[i]? =
        some (stringifyCore (tokens.filter
          (fun o => o ≠ tokens.get ⟨i, hN ▸ h⟩))) := by
      rw [hcs, List.getElem?_map, List.getElem?_eq_getElem hi]
      rfl
    have hnsi : (alignListLengths (splitList holder) (splitList nameVal))[i]? =
        some (if i < (splitList nameVal).length
          then (splitList nameVal).getD i none
          else (splitList nameVal).getLastD none) := by
      rw [alignListLengths_get _ _ i (by rw [hlenhs]; exact h)]
      by_cases hio : i < (splitList nameVal).length
      · rw [if_pos hio, if_pos hio, List.getElem?_eq_getElem hio]
        congr 1
        rw [List.getD_eq_getElem?_getD, List.getElem?_eq_getElem hio]
        rfl
      · rw [if_neg hio, if_neg hio]
    have hzip : ((splitList holder).zip
        ((alignListLengths (splitList holder) (splitList nameVal)).zip
          (computeCoList (splitList holder))))[i]? =
        some (some (tokens.get ⟨i, hN ▸ h⟩),
          ((if i < (splitList nameVal).length
            then (splitList nameVal).getD i none
            else (splitList nameVal).getLastD none),
           stringifyCore (tokens.filter
             (fun o => o ≠ tokens.get ⟨i, hN ▸ h⟩)))) := by
      apply List.getElem?_zip_eq_some.2
      exact ⟨hhsi, List.getElem?_zip_eq_some.2 ⟨hnsi, hcsi⟩⟩
    have hothers : tokens.filter (fun o => o ≠ tokens.get ⟨i, hN ▸ h⟩) =
        tokens.eraseIdx i :=
      nodup_filter_ne_eraseIdx tokens i (hN ▸ h) hnodup
    have herasecanon : ∀ x ∈ tokens.eraseIdx i, canonicalTok x :=
      fun x hx => hcanon x ((List.eraseIdx_sublist tokens i).mem hx)
    have herasend : (tokens.eraseIdx i).Nodup :=
      hnodup.sublist (List.eraseIdx_sublist tokens i)
    have heraselen : (tokens.eraseIdx i).length = N - 1 := by
      rw [List.length_eraseIdx]
      simp [hi]
      omega
    have herasene : tokens.eraseIdx i ≠ [] := by
      intro hnil
      rw [hnil] at heraselen
      simp at heraselen
      omega
    have hco : stringifyIdsOpt (stringifyCore (tokens.filter
        (fun o => o ≠ tokens.get ⟨i, hN ▸ h⟩))) =
        some (joinCommaSpace (tokens.eraseIdx i)) := by
      rw [hothers, stringifyCore_canonical _ herasecanon herasend herasene]
      exact stringify_join_roundtrip _ herasecanon herasend herasene
    refine ⟨({ castaway_id :=
(cleanCastawayIdChars (some (tokens.get ⟨i, hN ▸ h⟩)))
               castaway := (if i < (splitList nameVal).length
                 then (splitList nameVal).getD i none
                 else (splitList nameVal).getLastD none)
               co_castaway_ids := stringifyIdsOpt (stringifyCore (tokens.filter
                 (fun o => o ≠ tokens.get ⟨i, hN ▸ h⟩)))
               joint_play := (joint0 ||
                 decide (1 < ((splitList holder).filter truthyStr).length)) } :
        AdvOut), ?_, ?_, hco, heraselen, rfl⟩
    · rw [List.getElem?_map, hzip]
      rfl
    · exact cleanCastawayIdChars_canonical _
        (hcanon _ (List.get_mem tokens i (hN ▸ h)))
        (hnotnull _ (List.get_mem tokens i (hN ▸ h)))

/-- Witness for the amended explosion theorem: the holder field "A, B"
with name field "Al" explodes into two rows with ids A and B, each joint,
with the other token as co-holder. -/
theorem advantage_explosion_amended_witness :
    splitList (some ("A, B".data)) =
      [("A".data), ("B".data)].map some ∧
    ([("A".data), ("B".data)] : List Str).Nodup ∧
    ((explodeAdvRowNamed false (some ("A, B".data))
        (some ("Al".data))).length = 2 ∧
      ((explodeAdvRowNamed false (some ("A, B".data))
          (some ("Al".data))).map AdvOut.castaway_id =
        [("A".data), ("B".data)].map some) ∧
      (∀ o ∈ explodeAdvRowNamed false (some ("A, B".data))
          (some ("Al".data)), o.joint_play = true) ∧
      (∀ i, ∀ h : i < 2,
        ∃ o, (explodeAdvRowNamed false (some ("A, B".data))
            (some ("Al".data)))[i]? = some o ∧
        o.castaway_id =
          some (([("A".data), ("B".data)] : List Str).get
            ⟨i, (by decide : ([("A".data), ("B".data)] :
              List Str).length = 2) ▸ h⟩) ∧
        o.co_castaway_ids = some (joinCommaSpace
          (([("A".data), ("B".data)] : List Str).eraseIdx i)) ∧
        (([("A".data), ("B".data)] : List Str).eraseIdx i).length = 2 - 1 ∧
        o.castaway = (if i < (splitList (some ("Al".data))).length
          then (splitList (some ("Al".data))).getD i none
          else (splitList (some ("Al".data))).getLastD none))) :=
  ⟨by decide, by decide,
    advantage_explosion_amended false (some ("A, B".data))
      (some ("Al".data)) [("A".data), ("B".data)] 2
      (by decide) (by decide) (by decide) (by decide) (by decide)⟩

end Gamebot
